import Mathlib

/-!
Verification of the memory-management and task-scheduling core of the
rCore-style kernel (`os/src/mm/memory_area.rs`, `os/src/mm/memory_set.rs`,
`os/src/task/mod.rs`, `os/src/syscall/process.rs`).

The data model is a shallow embedding: machine words are `Nat`, `BTreeMap`
is an association list, fallible operations return `Except MemoryError`.
Modules of the repository that are not part of the provided sources
(`address.rs`, `page_table.rs`, `frame_allocator.rs`, `config.rs`) are
modelled from the specification; each such definition carries a
`Modelled from the spec:` doc comment.
-/

namespace RCoreOS

/-- Modelled from the spec: the config module is not in the provided sources;
the spec fixes SV39 page granularity (4096-byte pages; an 8192-byte buffer
covers exactly 2 pages). -/
def PAGE_SIZE : Nat := 4096

/-- Modelled from the spec: `VirtAddr::floor` from the missing `address.rs` —
virtual start addresses are rounded down to page granularity. -/
def VirtAddr.floor (va : Nat) : Nat := va / PAGE_SIZE

/-- Modelled from the spec: `VirtAddr::ceil` from the missing `address.rs` —
virtual end addresses are rounded up to page granularity. -/
def VirtAddr.ceil (va : Nat) : Nat := (va + PAGE_SIZE - 1) / PAGE_SIZE

/-- Modelled from the spec: the half-open range of virtual page numbers
`[l, r)` from the missing `address.rs`. -/
structure VPNRange where
  l : Nat
  r : Nat
deriving DecidableEq, Repr

def VPNRange.new (s e : Nat) : VPNRange := ⟨s, e⟩

def VPNRange.get_start (rg : VPNRange) : Nat := rg.l

def VPNRange.get_end (rg : VPNRange) : Nat := rg.r

def VPNRange.new_by_len (s len : Nat) : VPNRange := ⟨s, s + len⟩

/-- Iteration order of a `VPNRange`: the ascending list of pages in `[l, r)`. -/
def VPNRange.toList (rg : VPNRange) : List Nat := List.range' rg.l (rg.r - rg.l)

/-- Number of pages in the range (`into_iter().count()`). -/
def VPNRange.count (rg : VPNRange) : Nat := rg.r - rg.l

def VPNRange.is_empty (rg : VPNRange) : Bool := decide (rg.r ≤ rg.l)

def VPNRange.is_contains (rg : VPNRange) (vpn : Nat) : Bool :=
  decide (rg.l ≤ vpn) && decide (vpn < rg.r)

def VPNRange.intersects (a b : VPNRange) : Bool :=
  decide (max a.l b.l < min a.r b.r)

def VPNRange.intersection (a b : VPNRange) : VPNRange :=
  ⟨max a.l b.l, min a.r b.r⟩

/-- Modelled from the spec: `exclude` from the missing `address.rs` partitions
a range against a target into the portion before the target, the portion
after it, and the overlap with it (in that order, matching the
`let (l, _, rem) = ...` destructuring at the call sites). -/
def VPNRange.exclude (a t : VPNRange) : VPNRange × VPNRange × VPNRange :=
  (⟨a.l, min a.r (max a.l t.l)⟩, ⟨max a.l (min a.r t.r), a.r⟩,
   ⟨max a.l t.l, min a.r t.r⟩)

/-- Association-list model of `alloc::collections::BTreeMap` with `Nat` keys.
Keys are unique in every map built by the code; iteration order is the list
order, and all properties proved below are order-insensitive. -/
abbrev BTreeMap (α : Type) : Type := List (Nat × α)

def BTreeMap.contains_key {α : Type} (m : BTreeMap α) (k : Nat) : Bool :=
  m.any (fun kv => kv.1 == k)

def BTreeMap.insert {α : Type} (m : BTreeMap α) (k : Nat) (v : α) : BTreeMap α :=
  if m.any (fun kv => kv.1 == k) then
    m.map (fun kv => if kv.1 == k then (k, v) else kv)
  else m ++ [(k, v)]

def BTreeMap.remove {α : Type} (m : BTreeMap α) (k : Nat) : BTreeMap α :=
  m.filter (fun kv => kv.1 != k)

/-- Permission errors (`mm/error.rs`). -/
inductive PagePermissionError
  | Unexecutable
  | Unreadable
  | Unwritable
  | Unaccessible
deriving DecidableEq, Repr

/-- Page errors (`mm/error.rs`). -/
inductive PageError
  | DirPageInvalid
  | PageAlreadyAlloc
  | PageInvalid
  | PermissionError (e : PagePermissionError)
deriving DecidableEq, Repr

/-- Area errors (`mm/error.rs`), with the variant names used by the call
sites in `memory_set.rs` and `task/mod.rs`. -/
inductive AreaError
  | NotMatch
  | NotInclude
  | ContainMapped
  | ContainUnmapped
  | CriticalArea
deriving DecidableEq, Repr

/-- Top-level memory error (`mm/error.rs`). -/
inductive MemoryError
  | MemoryNotEnough
  | PageError (e : PageError)
  | AreaError (e : AreaError)
deriving DecidableEq, Repr

abbrev MemoryResult (α : Type) := Except MemoryError α

instance {α : Type} [DecidableEq α] : DecidableEq (MemoryResult α) := fun a b =>
  match a, b with
  | .ok x, .ok y => if h : x = y then .isTrue (by rw [h]) else .isFalse (by simp [h])
  | .ok _, .error _ => .isFalse (by simp)
  | .error _, .ok _ => .isFalse (by simp)
  | .error x, .error y => if h : x = y then .isTrue (by rw [h]) else .isFalse (by simp [h])

/-- A leaf page-table entry: physical page number plus flag bits
(V = bit 0, R = bit 1, W = bit 2, X = bit 3, U = bit 4). -/
structure PageTableEntry where
  ppn : Nat
  flags : Nat
deriving DecidableEq, Repr

def PageTableEntry.readable (e : PageTableEntry) : Bool := e.flags.testBit 1

def PageTableEntry.writable (e : PageTableEntry) : Bool := e.flags.testBit 2

def PageTableEntry.executable (e : PageTableEntry) : Bool := e.flags.testBit 3

/-- Modelled from the spec: the three-level page table of the missing
`page_table.rs`, abstracted to its leaf mapping VPN to entry (the
intermediate directory frames are bookkeeping below this interface). -/
structure PageTable where
  entries : List (Nat × PageTableEntry)
deriving DecidableEq, Repr

def PageTable.lookup (pt : PageTable) (vpn : Nat) : Option PageTableEntry :=
  pt.entries.lookup vpn

/-- Modelled from the spec: `map` fails with `PageAlreadyAlloc` if the leaf
entry is already valid (no silent overwrite); otherwise installs the entry. -/
def PageTable.map (pt : PageTable) (vpn ppn flags : Nat) : MemoryResult PageTable :=
  if (pt.lookup vpn).isSome then .error (.PageError .PageAlreadyAlloc)
  else .ok ⟨pt.entries ++ [(vpn, ⟨ppn, flags⟩)]⟩

/-- Modelled from the spec: `unmap` fails with `PageInvalid` if the leaf entry
is not valid; otherwise clears the entry. -/
def PageTable.unmap (pt : PageTable) (vpn : Nat) : MemoryResult PageTable :=
  if (pt.lookup vpn).isSome then .ok ⟨pt.entries.filter (fun kv => kv.1 != vpn)⟩
  else .error (.PageError .PageInvalid)

/-- Modelled from the spec: `translate` returns the entry or `PageInvalid`. -/
def PageTable.translate (pt : PageTable) (vpn : Nat) : MemoryResult PageTableEntry :=
  match pt.lookup vpn with
  | some e => .ok e
  | none => .error (.PageError .PageInvalid)

/-- Modelled from the spec: the frame allocator of the missing
`frame_allocator.rs` — a pool with `free` frames remaining, handing out
fresh physical page numbers; `alloc` returns `none` when exhausted. -/
structure FrameAllocator where
  free : Nat
  next : Nat
deriving DecidableEq, Repr

def frame_alloc (fa : FrameAllocator) : Option (Nat × FrameAllocator) :=
  if fa.free = 0 then none else some (fa.next, ⟨fa.free - 1, fa.next + 1⟩)

/-- Dropping `n` owned `FrameTracker`s returns `n` frames to the pool. -/
def frame_dealloc (fa : FrameAllocator) (n : Nat) : FrameAllocator :=
  ⟨fa.free + n, fa.next⟩

/-- Mapping kind (`memory_area.rs`). -/
inductive MapType
  | Identical
  | Framed
deriving DecidableEq, Repr

def MapPermission.R : Nat := 2
def MapPermission.W : Nat := 4
def MapPermission.X : Nat := 8
def MapPermission.U : Nat := 16

/-- A contiguous virtual-memory mapping (`MapArea` in `memory_area.rs`).
`data_frame` maps each owning VPN to the physical page number of the frame
its `FrameTracker` owns. -/
structure MapArea where
  vpn_range : VPNRange
  data_frame : BTreeMap Nat
  map_type : MapType
  map_permission : Nat
deriving DecidableEq, Repr

/-- `MapArea::new`: page-rounds the byte addresses (floor for start, ceiling
for end) and starts with no owned frames. -/
def MapArea.new (start_virt_addr end_virt_addr : Nat) (map_type : MapType)
    (map_perm : Nat) : MapArea :=
  ⟨VPNRange.new (VirtAddr.floor start_virt_addr) (VirtAddr.ceil end_virt_addr),
   [], map_type, map_perm⟩

/-- Loop body of `MapArea::split`: distribute the owned frames into the left
and right maps by comparing each key with the split point. -/
def MapArea.splitFrames (df : BTreeMap Nat) (vpn : Nat) :
    BTreeMap Nat × BTreeMap Nat :=
  df.foldl
    (fun acc kv =>
      if kv.1 < vpn then (BTreeMap.insert acc.1 kv.1 kv.2, acc.2)
      else (acc.1, BTreeMap.insert acc.2 kv.1 kv.2))
    ([], [])

/-- `MapArea::split`. -/
def MapArea.split (a : MapArea) (vpn : Nat) : MapArea × MapArea :=
  let other : MapArea :=
    ⟨VPNRange.new vpn vpn, [], a.map_type, a.map_permission⟩
  if vpn ≤ a.vpn_range.get_start then (other, a)
  else if a.vpn_range.get_end ≤ vpn then (a, other)
  else
    let lr := MapArea.splitFrames a.data_frame vpn
    (⟨VPNRange.new a.vpn_range.get_start vpn, lr.1, a.map_type, a.map_permission⟩,
     ⟨VPNRange.new vpn a.vpn_range.get_end, lr.2, a.map_type, a.map_permission⟩)

/-- `MapArea::check_page_raw` (`memory_area.rs:72`): if `vpn` does not yet own
a frame, allocate one, record ownership, and install the page-table mapping;
if the insertion fails, remove (and thereby free) the just-taken frame before
propagating the error. -/
def MapArea.check_page_raw (a : MapArea) (pt : PageTable) (fa : FrameAllocator)
    (vpn : Nat) : MemoryResult Unit × MapArea × PageTable × FrameAllocator :=
  if BTreeMap.contains_key a.data_frame vpn then (.ok (), a, pt, fa)
  else
    match frame_alloc fa with
    | none => (.error .MemoryNotEnough, a, pt, fa)
    | some (ppn, fa') =>
      let a' := { a with data_frame := BTreeMap.insert a.data_frame vpn ppn }
      match pt.map vpn ppn a.map_permission with
      | .ok pt' => (.ok (), a', pt', fa')
      | .error e =>
        (.error e, { a' with data_frame := BTreeMap.remove a'.data_frame vpn },
         pt, frame_dealloc fa' 1)

/-- Loop of `MapArea::check_range` over the pages of the requested
intersection, stopping at the first error. -/
def MapArea.check_vpns (a : MapArea) (pt : PageTable) (fa : FrameAllocator) :
    List Nat → MemoryResult Unit × MapArea × PageTable × FrameAllocator
  | [] => (.ok (), a, pt, fa)
  | vpn :: rest =>
    match MapArea.check_page_raw a pt fa vpn with
    | (.ok _, a', pt', fa') => MapArea.check_vpns a' pt' fa' rest
    | (.error e, a', pt', fa') => (.error e, a', pt', fa')

/-- `MapArea::check_range` (`memory_area.rs:89`): a no-op for `Identical`
regions; for `Framed` regions, runs `check_page_raw` over the intersection of
the region's range with the requested range. -/
def MapArea.check_range (a : MapArea) (pt : PageTable) (fa : FrameAllocator)
    (rg : VPNRange) : MemoryResult Unit × MapArea × PageTable × FrameAllocator :=
  match a.map_type with
  | .Identical => (.ok (), a, pt, fa)
  | .Framed => MapArea.check_vpns a pt fa ((a.vpn_range.intersection rg).toList)

/-- `MapArea::check_all_page`: `check_range` over the whole region. -/
def MapArea.check_all_page (a : MapArea) (pt : PageTable) (fa : FrameAllocator) :
    MemoryResult Unit × MapArea × PageTable × FrameAllocator :=
  MapArea.check_range a pt fa a.vpn_range

/-- `MapArea::map_one`: install one page — identity regions map the VPN to the
numerically identical PPN; framed regions defer to lazy fill. -/
def MapArea.map_one (a : MapArea) (pt : PageTable) (vpn : Nat) :
    MemoryResult Unit × PageTable :=
  match a.map_type with
  | .Identical =>
    match pt.map vpn vpn a.map_permission with
    | .ok pt' => (.ok (), pt')
    | .error e => (.error e, pt)
  | .Framed => (.ok (), pt)

/-- `MapArea::unmap_one`: for framed regions drop the owned frame (freeing
it), then clear the page-table entry, treating `DirPageInvalid` and
`PageInvalid` as success. -/
def MapArea.unmap_one (a : MapArea) (pt : PageTable) (fa : FrameAllocator)
    (vpn : Nat) : MemoryResult Unit × MapArea × PageTable × FrameAllocator :=
  let (a', fa') :=
    if a.map_type = MapType.Framed then
      if BTreeMap.contains_key a.data_frame vpn then
        ({ a with data_frame := BTreeMap.remove a.data_frame vpn },
         frame_dealloc fa 1)
      else (a, fa)
    else (a, fa)
  match pt.unmap vpn with
  | .ok pt' => (.ok (), a', pt', fa')
  | .error (.PageError .DirPageInvalid) => (.ok (), a', pt, fa')
  | .error (.PageError .PageInvalid) => (.ok (), a', pt, fa')
  | .error e => (.error e, a', pt, fa')

/-- Loop of `MapArea::map` and `MapArea::expand` over a list of pages. -/
def MapArea.map_vpns (a : MapArea) (pt : PageTable) :
    List Nat → MemoryResult Unit × PageTable
  | [] => (.ok (), pt)
  | vpn :: rest =>
    match MapArea.map_one a pt vpn with
    | (.ok _, pt') => MapArea.map_vpns a pt' rest
    | (.error e, pt') => (.error e, pt')

/-- Loop of `MapArea::unmap` and `MapArea::narrow` over a list of pages. -/
def MapArea.unmap_vpns (a : MapArea) (pt : PageTable) (fa : FrameAllocator) :
    List Nat → MemoryResult Unit × MapArea × PageTable × FrameAllocator
  | [] => (.ok (), a, pt, fa)
  | vpn :: rest =>
    match MapArea.unmap_one a pt fa vpn with
    | (.ok _, a', pt', fa') => MapArea.unmap_vpns a' pt' fa' rest
    | (.error e, a', pt', fa') => (.error e, a', pt', fa')

/-- `MapArea::map`: `map_one` over every page of the region. -/
def MapArea.map (a : MapArea) (pt : PageTable) : MemoryResult Unit × PageTable :=
  MapArea.map_vpns a pt a.vpn_range.toList

/-- `MapArea::unmap`: `unmap_one` over every page of the region. -/
def MapArea.unmap (a : MapArea) (pt : PageTable) (fa : FrameAllocator) :
    MemoryResult Unit × MapArea × PageTable × FrameAllocator :=
  MapArea.unmap_vpns a pt fa a.vpn_range.toList

/-- `MapArea::narrow` (`memory_area.rs:156`): unmap the trailing pages
`[to, end)`, then shrink the recorded range; an error part-way returns
without touching the recorded range. -/
def MapArea.narrow (a : MapArea) (pt : PageTable) (fa : FrameAllocator)
    (new_end : Nat) : MemoryResult Unit × MapArea × PageTable × FrameAllocator :=
  match MapArea.unmap_vpns a pt fa (VPNRange.new new_end a.vpn_range.get_end).toList with
  | (.ok _, a', pt', fa') =>
    (.ok (), { a' with vpn_range := VPNRange.new a.vpn_range.get_start new_end }, pt', fa')
  | (.error e, a', pt', fa') => (.error e, a', pt', fa')

/-- `MapArea::expand` (`memory_area.rs:169`): map the new pages `[end, to)`,
then grow the recorded range; an error part-way returns without touching the
recorded range. -/
def MapArea.expand (a : MapArea) (pt : PageTable) (fa : FrameAllocator)
    (new_end : Nat) : MemoryResult Unit × MapArea × PageTable × FrameAllocator :=
  match MapArea.map_vpns a pt (VPNRange.new a.vpn_range.get_end new_end).toList with
  | (.ok _, pt') =>
    (.ok (), { a with vpn_range := VPNRange.new a.vpn_range.get_start new_end }, pt', fa)
  | (.error e, pt') => (.error e, a, pt', fa)

/-- Physical memory as a byte store: `mem ppn i` is byte `i` of frame `ppn`
(the `get_bytes_array` view of the missing frame code, modelled from the
spec's physical-byte-view description). -/
def PhysMem : Type := Nat → Nat → Nat

/-- Write `src` over the leading bytes of frame `ppn`. -/
def PhysMem.writeBytes (mem : PhysMem) (ppn : Nat) (src : List Nat) : PhysMem :=
  fun p i => if p = ppn ∧ i < src.length then src.getD i 0 else mem p i

/-- Copy loop of `MapArea::copy_data`: copy up to `PAGE_SIZE` bytes of the
remaining data into the frame backing the current page, then advance one
page; break once the remaining data fits in the current page. -/
def MapArea.copy_loop (pt : PageTable) (mem : PhysMem) (rest : List Nat)
    (vpn : Nat) : MemoryResult Unit × PhysMem :=
  let src := rest.take PAGE_SIZE
  match pt.translate vpn with
  | .error e => (.error e, mem)
  | .ok pte =>
    let mem' := mem.writeBytes pte.ppn src
    if h : rest.length ≤ PAGE_SIZE then (.ok (), mem')
    else MapArea.copy_loop pt mem' (rest.drop PAGE_SIZE) (vpn + 1)
termination_by rest.length
decreasing_by
  simp only [List.length_drop]
  have hp : 0 < PAGE_SIZE := by decide
  omega

/-- `MapArea::copy_data` (`memory_area.rs:180`): asserts a `Framed` region
large enough for `⌈data.len / PAGE_SIZE⌉` pages (`none` models the assertion
panic; the byte count is positive at every call site, so the `usize`
subtraction in `pages` agrees with truncated subtraction), forces those pages
resident from the region's start, then copies the data page by page into the
backing frames. -/
def MapArea.copy_data (a : MapArea) (pt : PageTable) (fa : FrameAllocator)
    (mem : PhysMem) (data : List Nat) :
    Option (MemoryResult Unit × MapArea × PageTable × FrameAllocator × PhysMem) :=
  if a.map_type ≠ MapType.Framed then none
  else
    let pages := (data.length - 1 + PAGE_SIZE) / PAGE_SIZE
    if ¬ pages ≤ a.vpn_range.count then none
    else
      match MapArea.check_range a pt fa
          (VPNRange.new_by_len a.vpn_range.get_start pages) with
      | (.error e, a', pt', fa') => some (.error e, a', pt', fa', mem)
      | (.ok _, a', pt', fa') =>
        match MapArea.copy_loop pt' mem data a.vpn_range.get_start with
        | (.ok _, mem') => some (.ok (), a', pt', fa', mem')
        | (.error e, mem') => some (.error e, a', pt', fa', mem')

/-- Modelled from the spec: the trampoline page sits at the fixed highest
virtual page (`config.rs` is not in the provided sources), so its byte
address is `usize::MAX - PAGE_SIZE + 1`. -/
def TRAMPOLINE : Nat := 2 ^ 64 - PAGE_SIZE

/-- Modelled from the spec: the trap-context region sits immediately below
the trampoline page. -/
def TRAP_CONTEXT_BASE : Nat := TRAMPOLINE - PAGE_SIZE

/-- An address space (`MemorySet` in `memory_set.rs`): one page table plus the
ordered collection of mapped regions. -/
structure MemorySet where
  page_table : PageTable
  areas : List MapArea
deriving DecidableEq, Repr

/-- `MemorySet::push` (`memory_set.rs:79`): map the region, force allocation of
all its pages, optionally copy data in, then record the region. `none` models
the assertion panic inside `copy_data`. -/
def MemorySet.push (ms : MemorySet) (fa : FrameAllocator) (mem : PhysMem)
    (map_area : MapArea) (data : Option (List Nat)) :
    Option (MemoryResult Unit × MemorySet × FrameAllocator × PhysMem) :=
  match MapArea.map map_area ms.page_table with
  | (.error e, pt') =>
    some (.error e, { ms with page_table := pt' },
          frame_dealloc fa map_area.data_frame.length, mem)
  | (.ok _, pt') =>
    match MapArea.check_all_page map_area pt' fa with
    | (.error e, a', pt'', fa') =>
      some (.error e, { ms with page_table := pt'' },
            frame_dealloc fa' a'.data_frame.length, mem)
    | (.ok _, a', pt'', fa') =>
      match data with
      | none =>
        some (.ok (), ⟨pt'', ms.areas ++ [a']⟩, fa', mem)
      | some bytes =>
        match MapArea.copy_data a' pt'' fa' mem bytes with
        | none => none
        | some (.error e, a2, pt3, fa2, mem') =>
          some (.error e, { ms with page_table := pt3 },
                frame_dealloc fa2 a2.data_frame.length, mem')
        | some (.ok _, a2, pt3, fa2, mem') =>
          some (.ok (), ⟨pt3, ms.areas ++ [a2]⟩, fa2, mem')

/-- `MemorySet::push_lazy` (`memory_set.rs:88`): like `push` but without the
forced allocation. -/
def MemorySet.push_lazy (ms : MemorySet) (fa : FrameAllocator) (mem : PhysMem)
    (map_area : MapArea) (data : Option (List Nat)) :
    Option (MemoryResult Unit × MemorySet × FrameAllocator × PhysMem) :=
  match MapArea.map map_area ms.page_table with
  | (.error e, pt') =>
    some (.error e, { ms with page_table := pt' },
          frame_dealloc fa map_area.data_frame.length, mem)
  | (.ok _, pt') =>
    match data with
    | none =>
      some (.ok (), ⟨pt', ms.areas ++ [map_area]⟩, fa, mem)
    | some bytes =>
      match MapArea.copy_data map_area pt' fa mem bytes with
      | none => none
      | some (.error e, a2, pt3, fa2, mem') =>
        some (.error e, { ms with page_table := pt3 },
              frame_dealloc fa2 a2.data_frame.length, mem')
      | some (.ok _, a2, pt3, fa2, mem') =>
        some (.ok (), ⟨pt3, ms.areas ++ [a2]⟩, fa2, mem')

/-- `MemorySet::insert_framed_area`: eagerly push a new framed region. -/
def MemorySet.insert_framed_area (ms : MemorySet) (fa : FrameAllocator)
    (mem : PhysMem) (start_va end_va : Nat) (permission : Nat) :
    Option (MemoryResult Unit × MemorySet × FrameAllocator × PhysMem) :=
  ms.push fa mem (MapArea.new start_va end_va MapType.Framed permission) none

/-- `MemorySet::insert_framed_area_lazy`: lazily push a new framed region. -/
def MemorySet.insert_framed_area_lazy (ms : MemorySet) (fa : FrameAllocator)
    (mem : PhysMem) (start_va end_va : Nat) (permission : Nat) :
    Option (MemoryResult Unit × MemorySet × FrameAllocator × PhysMem) :=
  ms.push_lazy fa mem (MapArea.new start_va end_va MapType.Framed permission) none

/-- Search step of `MemorySet::transform` (`memory_set.rs:259`): find the
first region containing the page and force that single page resident. -/
def MemorySet.transform_areas (pt : PageTable) (fa : FrameAllocator) (vpn : Nat) :
    List MapArea → MemoryResult Unit × List MapArea × PageTable × FrameAllocator
  | [] => (.error (.AreaError .NotInclude), [], pt, fa)
  | a :: rest =>
    if a.vpn_range.is_contains vpn then
      match MapArea.check_range a pt fa (VPNRange.new_by_len vpn 1) with
      | (res, a', pt', fa') => (res, a' :: rest, pt', fa')
    else
      match MemorySet.transform_areas pt fa vpn rest with
      | (res, rest', pt', fa') => (res, a :: rest', pt', fa')

/-- `MemorySet::transform` (called `translate` by its user in `task/mod.rs`):
fault-style completion of a single lazy page followed by a raw translation;
fails with `NotInclude` when no region owns the page. -/
def MemorySet.transform (ms : MemorySet) (fa : FrameAllocator) (vpn : Nat) :
    MemoryResult PageTableEntry × MemorySet × FrameAllocator :=
  match MemorySet.transform_areas ms.page_table fa vpn ms.areas with
  | (.error e, areas', pt', fa') => (.error e, ⟨pt', areas'⟩, fa')
  | (.ok _, areas', pt', fa') => (pt'.translate vpn, ⟨pt', areas'⟩, fa')

/-- `MemorySet::is_mapped`: does the range intersect any existing region? -/
def MemorySet.is_mapped (ms : MemorySet) (range : VPNRange) : Bool :=
  ms.areas.any (fun x => x.vpn_range.intersects range)

/-- `MemorySet::is_unmapped`: the range is not fully covered by existing
regions — the per-region overlap counts do not add up to the range length. -/
def MemorySet.is_unmapped (ms : MemorySet) (range : VPNRange) : Bool :=
  decide
    ((ms.areas.map (fun x => ((x.vpn_range.exclude range).2.2).count)).sum ≠
      range.count)

/-- `MemorySet::is_critical`: is the page the trampoline page or the
trap-context page? -/
def MemorySet.is_critical (vpn : Nat) : Bool :=
  decide (vpn = VirtAddr.floor TRAMPOLINE) ||
  decide (vpn = VirtAddr.floor TRAP_CONTEXT_BASE)

/-- `MemorySet::map_memory` (`memory_set.rs:319`): reject ranges touching a
critical page, then ranges intersecting an existing region, otherwise lazily
register the new framed region. -/
def MemorySet.map_memory (ms : MemorySet) (fa : FrameAllocator) (mem : PhysMem)
    (start_va end_va : Nat) (permission : Nat) :
    Option (MemoryResult Unit × MemorySet × FrameAllocator × PhysMem) :=
  let area := MapArea.new start_va end_va MapType.Framed permission
  if area.vpn_range.toList.any MemorySet.is_critical then
    some (.error (.AreaError .CriticalArea), ms, fa, mem)
  else if ms.is_mapped area.vpn_range then
    some (.error (.AreaError .ContainMapped), ms, fa, mem)
  else
    ms.push_lazy fa mem area none

/-- Loop of `MemorySet::unmap_memory` over the taken region list: regions not
overlapping the target are kept; overlapping ones are split into the portion
before, the target portion, and the portion after; nonempty remainders are
kept and the target portion is unmapped and dropped. On an error the
remaining regions of the taken list are dropped with their frames. -/
def MemorySet.unmap_areas (pt : PageTable) (fa : FrameAllocator)
    (target : VPNRange) :
    List MapArea → MemoryResult Unit × List MapArea × PageTable × FrameAllocator
  | [] => (.ok (), [], pt, fa)
  | area :: rest =>
    let ex := area.vpn_range.exclude target
    if ex.2.2.is_empty then
      let r := MemorySet.unmap_areas pt fa target rest
      (r.1, area :: r.2.1, r.2.2.1, r.2.2.2)
    else
      let sp1 := area.split ex.1.get_end
      let sp2 := sp1.2.split ex.2.2.get_end
      let kept :=
        (if sp1.1.vpn_range.is_empty then [] else [sp1.1]) ++
        (if sp2.2.vpn_range.is_empty then [] else [sp2.2])
      let u := MapArea.unmap sp2.1 pt fa
      match u.1 with
      | .ok _ =>
        let r := MemorySet.unmap_areas u.2.2.1
          (frame_dealloc u.2.2.2 u.2.1.data_frame.length) target rest
        (r.1, kept ++ r.2.1, r.2.2.1, r.2.2.2)
      | .error e =>
        (.error e, kept, u.2.2.1,
         frame_dealloc u.2.2.2
           (u.2.1.data_frame.length +
            (rest.map (fun x => x.data_frame.length)).sum))

/-- `MemorySet::unmap_memory` (`memory_set.rs:339`): reject ranges touching a
critical page, then ranges not fully covered by existing regions, otherwise
partition every overlapping region via `split`, keep the non-overlapping
remainders and unmap the target portion, dropping its frames. -/
def MemorySet.unmap_memory (ms : MemorySet) (fa : FrameAllocator)
    (start_va end_va : Nat) :
    MemoryResult Unit × MemorySet × FrameAllocator :=
  let target := VPNRange.new (VirtAddr.floor start_va) (VirtAddr.ceil end_va)
  if target.toList.any MemorySet.is_critical then
    (.error (.AreaError .CriticalArea), ms, fa)
  else if ms.is_unmapped target then
    (.error (.AreaError .ContainUnmapped), ms, fa)
  else
    let r := MemorySet.unmap_areas ms.page_table fa target ms.areas
    (r.1, ⟨r.2.2.1, r.2.1⟩, r.2.2.2)

/-- Task lifecycle states (`task/task.rs`). -/
inductive TaskStatus
  | UnInit
  | Ready
  | Running
  | Exited
deriving DecidableEq, Repr

/-- `TaskManager::find_next_task` (`task/mod.rs:112`): scan the ids
`current+1 .. current+num_app+1`, reduced modulo `num_app`, and return the
first whose task is `Ready`. -/
def find_next_task (tasks : List TaskStatus) (current : Nat) : Option Nat :=
  (((List.range' (current + 1) tasks.length).map (fun id => id % tasks.length)).find?
    (fun id => tasks.getD id TaskStatus.UnInit == TaskStatus.Ready))

/-- `TaskManager::run_next_task` (`task/mod.rs:141`): switch to the found task,
marking it `Running`; `none` models the fatal
`panic!("All applications completed!")` when no task is `Ready`. -/
def run_next_task (tasks : List TaskStatus) (current : Nat) :
    Option (List TaskStatus × Nat) :=
  match find_next_task tasks current with
  | some next => some (tasks.set next TaskStatus.Running, next)
  | none => none

/-- `TaskManager::syscall_counter` (`task/mod.rs:186`): bump the invocation
count recorded for `syscall_id` in the current task's counter map
(`*times.entry(syscall_id).or_default() += 1`). -/
def syscall_counter (times : BTreeMap Nat) (syscall_id : Nat) : BTreeMap Nat :=
  if times.any (fun kv => kv.1 == syscall_id) then
    times.map (fun kv => if kv.1 == syscall_id then (kv.1, kv.2 + 1) else kv)
  else times ++ [(syscall_id, 1)]

/-- Modelled from the spec: `MAX_SYSCALL_NUM` lives in the missing
`config.rs`; the claims are parametric in its value, fixed here to the
conventional 500. -/
def MAX_SYSCALL_NUM : Nat := 500

/-- Loop of `TaskManager::set_syscall_times`: write each recorded count at
index `id` of the fixed-size output array; `none` models the out-of-bounds
panic of `syscalls[*id] = *n` when `id` is not below the array length. -/
def set_syscall_times_loop : BTreeMap Nat → List Nat → Option (List Nat)
  | [], arr => some arr
  | (id, n) :: rest, arr =>
    if id < arr.length then set_syscall_times_loop rest (arr.set id n)
    else none

/-- `TaskManager::set_syscall_times` (`task/mod.rs:177`): copy the recorded
counter map into a `[u32; MAX_SYSCALL_NUM]` array by direct indexing. -/
def set_syscall_times (times : BTreeMap Nat) : Option (List Nat) :=
  set_syscall_times_loop times (List.replicate MAX_SYSCALL_NUM 0)

/-- `TaskManager::check_readable` (`task/mod.rs:219`): translate the page of
`va` through the current address space, then require the read flag. -/
def check_readable (ms : MemorySet) (fa : FrameAllocator) (va : Nat) :
    MemoryResult Unit × MemorySet × FrameAllocator :=
  match ms.transform fa (VirtAddr.floor va) with
  | (.ok a, ms', fa') =>
    if a.readable then (.ok (), ms', fa')
    else (.error (.PageError (.PermissionError .Unreadable)), ms', fa')
  | (.error e, ms', fa') => (.error e, ms', fa')

/-- `TaskManager::check_writeable` (`task/mod.rs:231`): translate, then
require both the read and the write flag. -/
def check_writeable (ms : MemorySet) (fa : FrameAllocator) (va : Nat) :
    MemoryResult Unit × MemorySet × FrameAllocator :=
  match ms.transform fa (VirtAddr.floor va) with
  | (.ok a, ms', fa') =>
    if a.readable && a.writable then (.ok (), ms', fa')
    else (.error (.PageError (.PermissionError .Unwritable)), ms', fa')
  | (.error e, ms', fa') => (.error e, ms', fa')

/-- `TaskManager::check_executable` (`task/mod.rs:244`): translate, then
require both the read and the execute flag. -/
def check_executable (ms : MemorySet) (fa : FrameAllocator) (va : Nat) :
    MemoryResult Unit × MemorySet × FrameAllocator :=
  match ms.transform fa (VirtAddr.floor va) with
  | (.ok a, ms', fa') =>
    if a.readable && a.executable then (.ok (), ms', fa')
    else (.error (.PageError (.PermissionError .Unexecutable)), ms', fa')
  | (.error e, ms', fa') => (.error e, ms', fa')

/-! Helper lemmas about the association-list maps and the page table. -/

theorem BTreeMap.insert_fresh {α : Type} (m : BTreeMap α) (k : Nat) (v : α)
    (h : k ∉ m.map Prod.fst) : BTreeMap.insert m k v = m ++ [(k, v)] := by
  unfold BTreeMap.insert
  have : m.any (fun kv => kv.1 == k) = false := by
    simp only [List.any_eq_false]
    intro kv hkv
    simp only [beq_iff_eq]
    intro hk
    exact h (by simpa [hk] using List.mem_map_of_mem Prod.fst hkv)
  simp [this]

theorem BTreeMap.contains_key_iff {α : Type} (m : BTreeMap α) (k : Nat) :
    BTreeMap.contains_key m k = true ↔ k ∈ m.map Prod.fst := by
  simp only [BTreeMap.contains_key, List.any_eq_true, List.mem_map]
  constructor
  · rintro ⟨kv, hkv, he⟩
    exact ⟨kv, hkv, by simpa using (beq_iff_eq.mp he)⟩
  · rintro ⟨kv, hkv, he⟩
    exact ⟨kv, hkv, by simp [he]⟩

theorem PageTable.lookup_append (l1 l2 : List (Nat × PageTableEntry)) (k : Nat) :
    (PageTable.mk (l1 ++ l2)).lookup k =
      ((PageTable.mk l1).lookup k).or ((PageTable.mk l2).lookup k) := by
  simp only [PageTable.lookup]
  induction l1 with
  | nil => rfl
  | cons kv rest ih =>
    by_cases h : k == kv.1
    · simp [List.lookup, h]
    · simpa [List.lookup, h] using ih

theorem PageTable.lookup_filter_ne (l : List (Nat × PageTableEntry)) (k v : Nat)
    (hne : k ≠ v) :
    (PageTable.mk (l.filter (fun kv => kv.1 != v))).lookup k =
      (PageTable.mk l).lookup k := by
  simp only [PageTable.lookup]
  have hkv : (k == v) = false := by simp [hne]
  induction l with
  | nil => simp
  | cons kv rest ih =>
    by_cases hv : kv.1 = v
    · simp [List.lookup, hv, hkv, ih]
    · by_cases hk : k == kv.1
      · simp [List.lookup, hv, hk]
      · simp [List.lookup, hv, hk, ih]

theorem PageTable.lookup_filter_self (l : List (Nat × PageTableEntry)) (v : Nat) :
    (PageTable.mk (l.filter (fun kv => kv.1 != v))).lookup v = none := by
  simp only [PageTable.lookup]
  induction l with
  | nil => simp
  | cons kv rest ih =>
    by_cases hv : kv.1 = v
    · simp [List.lookup, hv, ih]
    · have : (v == kv.1) = false := by simp [Ne.symm hv]
      simp [List.lookup, hv, this, ih]

/-! The `split` loop: with distinct keys and accumulators fresh for the
remaining input, the fold partitions the owned frames by key. -/

theorem MapArea.splitFrames_loop (p : Nat) (df : BTreeMap Nat)
    (accl accr : BTreeMap Nat)
    (hfresh : ∀ kv ∈ df, kv.1 ∉ accl.map Prod.fst ∧ kv.1 ∉ accr.map Prod.fst)
    (hnd : (df.map Prod.fst).Nodup) :
    df.foldl
      (fun acc kv =>
        if kv.1 < p then (BTreeMap.insert acc.1 kv.1 kv.2, acc.2)
        else (acc.1, BTreeMap.insert acc.2 kv.1 kv.2))
      (accl, accr) =
    (accl ++ df.filter (fun kv => decide (kv.1 < p)),
     accr ++ df.filter (fun kv => ! decide (kv.1 < p))) := by
  induction df generalizing accl accr with
  | nil => simp
  | cons kv rest ih =>
    simp only [List.map_cons, List.nodup_cons] at hnd
    have hkv := hfresh kv (List.mem_cons_self _ _)
    have hrest : ∀ kv' ∈ rest,
        kv'.1 ∉ (accl ++ [kv]).map Prod.fst ∧ kv'.1 ∉ accr.map Prod.fst := by
      intro kv' hkv'
      have h1 := hfresh kv' (List.mem_cons_of_mem _ hkv')
      have hne : kv'.1 ≠ kv.1 := by
        intro he
        exact hnd.1 (he ▸ List.mem_map_of_mem Prod.fst hkv')
      refine ⟨?_, h1.2⟩
      simp only [List.map_append, List.mem_append, List.map_cons]
      rintro (h | h)
      · exact h1.1 h
      · simp at h
        exact hne h
    have hrest' : ∀ kv' ∈ rest,
        kv'.1 ∉ accl.map Prod.fst ∧ kv'.1 ∉ (accr ++ [kv]).map Prod.fst := by
      intro kv' hkv'
      have h1 := hfresh kv' (List.mem_cons_of_mem _ hkv')
      have hne : kv'.1 ≠ kv.1 := by
        intro he
        exact hnd.1 (he ▸ List.mem_map_of_mem Prod.fst hkv')
      refine ⟨h1.1, ?_⟩
      simp only [List.map_append, List.mem_append, List.map_cons]
      rintro (h | h)
      · exact h1.2 h
      · simp at h
        exact hne h
    by_cases hp : kv.1 < p
    · rw [List.foldl_cons]
      simp only [hp, if_pos]
      rw [BTreeMap.insert_fresh _ _ _ hkv.1]
      rw [ih (accl ++ [kv]) accr hrest hnd.2]
      simp [List.filter_cons, hp]
    · rw [List.foldl_cons]
      simp only [hp, if_neg, if_false]
      rw [BTreeMap.insert_fresh _ _ _ hkv.2]
      rw [ih accl (accr ++ [kv]) hrest' hnd.2]
      simp [List.filter_cons, hp]

theorem MapArea.splitFrames_eq (df : BTreeMap Nat) (p : Nat)
    (hnd : (df.map Prod.fst).Nodup) :
    MapArea.splitFrames df p =
      (df.filter (fun kv => decide (kv.1 < p)),
       df.filter (fun kv => ! decide (kv.1 < p))) := by
  unfold MapArea.splitFrames
  rw [MapArea.splitFrames_loop p df [] [] (by simp) hnd]
  simp

/-- C1: for every mapped region with owned-frame set `F` and every split
point `p`, `split p` returns `(left, right)` with `left`'s frames exactly the
frames of `F` whose VPN is below `p` and `right`'s frames exactly the rest —
disjointly, with union `F`, no frame duplicated, dropped or reallocated; if
`p` is at or before the region's start the result is
`(empty region, original region)`, and if `p` is at or after the region's end
the result is `(original region, empty region)`. -/
theorem C1_split_partitions_frames (a : MapArea) (p : Nat)
    (hnd : (a.data_frame.map Prod.fst).Nodup) :
    (p ≤ a.vpn_range.get_start →
      a.split p =
        (⟨VPNRange.new p p, [], a.map_type, a.map_permission⟩, a)) ∧
    (a.vpn_range.get_start < p → a.vpn_range.get_end ≤ p →
      a.split p =
        (a, ⟨VPNRange.new p p, [], a.map_type, a.map_permission⟩)) ∧
    (a.vpn_range.get_start < p → p < a.vpn_range.get_end →
      (a.split p).1.data_frame =
          a.data_frame.filter (fun kv => decide (kv.1 < p)) ∧
      (a.split p).2.data_frame =
          a.data_frame.filter (fun kv => ! decide (kv.1 < p)) ∧
      (a.split p).1.vpn_range = VPNRange.new a.vpn_range.get_start p ∧
      (a.split p).2.vpn_range = VPNRange.new p a.vpn_range.get_end ∧
      (∀ kv : Nat × Nat,
        kv ∈ a.data_frame ↔
          kv ∈ (a.split p).1.data_frame ∨ kv ∈ (a.split p).2.data_frame) ∧
      (∀ kv : Nat × Nat,
        ¬(kv ∈ (a.split p).1.data_frame ∧ kv ∈ (a.split p).2.data_frame))) := by
  refine ⟨?_, ?_, ?_⟩
  · intro h
    unfold MapArea.split
    simp [h]
  · intro h1 h2
    unfold MapArea.split
    simp [h1, h2, Nat.not_le.mpr h1]
  · intro h1 h2
    have hsf := MapArea.splitFrames_eq a.data_frame p hnd
    have hs : a.split p =
        (⟨VPNRange.new a.vpn_range.get_start p,
            a.data_frame.filter (fun kv => decide (kv.1 < p)),
            a.map_type, a.map_permission⟩,
         ⟨VPNRange.new p a.vpn_range.get_end,
            a.data_frame.filter (fun kv => ! decide (kv.1 < p)),
            a.map_type, a.map_permission⟩) := by
      unfold MapArea.split
      rw [if_neg (by omega), if_neg (by omega)]
      simp [hsf]
    rw [hs]
    refine ⟨rfl, rfl, rfl, rfl, ?_, ?_⟩
    · intro kv
      constructor
      · intro hm
        by_cases hp : kv.1 < p
        · exact Or.inl (List.mem_filter.mpr ⟨hm, by simp [hp]⟩)
        · exact Or.inr (List.mem_filter.mpr ⟨hm, by simp [hp]⟩)
      · rintro (hm | hm) <;> exact (List.mem_filter.mp hm).1
    · rintro kv ⟨hl, hr⟩
      have h1' := (List.mem_filter.mp hl).2
      have h2' := (List.mem_filter.mp hr).2
      simp at h1' h2'
      omega

theorem BTreeMap.remove_of_fresh {α : Type} (m : BTreeMap α) (k : Nat)
    (h : k ∉ m.map Prod.fst) : BTreeMap.remove m k = m := by
  unfold BTreeMap.remove
  apply List.filter_eq_self.mpr
  intro kv hkv
  simp only [bne_iff_ne, ne_eq]
  intro he
  exact h (he ▸ List.mem_map_of_mem Prod.fst hkv)

theorem BTreeMap.remove_insert_fresh {α : Type} (m : BTreeMap α) (k : Nat)
    (v : α) (h : k ∉ m.map Prod.fst) :
    BTreeMap.remove (BTreeMap.insert m k v) k = m := by
  rw [BTreeMap.insert_fresh m k v h]
  unfold BTreeMap.remove
  rw [List.filter_append]
  have h1 : List.filter (fun kv => kv.1 != k) [(k, v)] = [] := by simp
  rw [h1, List.append_nil]
  exact BTreeMap.remove_of_fresh m k h

theorem BTreeMap.contains_key_eq_false {α : Type} (m : BTreeMap α) (k : Nat) :
    BTreeMap.contains_key m k = false ↔ k ∉ m.map Prod.fst := by
  rw [← Bool.not_eq_true, not_iff_not]
  exact BTreeMap.contains_key_iff m k

/-! Behaviour of `check_page_raw` in each of its four cases. -/

theorem MapArea.check_page_raw_owned (a : MapArea) (pt : PageTable)
    (fa : FrameAllocator) (vpn : Nat)
    (h : BTreeMap.contains_key a.data_frame vpn = true) :
    MapArea.check_page_raw a pt fa vpn = (.ok (), a, pt, fa) := by
  unfold MapArea.check_page_raw
  simp [h]

theorem MapArea.check_page_raw_exhausted (a : MapArea) (pt : PageTable)
    (fa : FrameAllocator) (vpn : Nat)
    (h : BTreeMap.contains_key a.data_frame vpn = false) (hf : fa.free = 0) :
    MapArea.check_page_raw a pt fa vpn = (.error .MemoryNotEnough, a, pt, fa) := by
  unfold MapArea.check_page_raw
  simp [h, frame_alloc, hf]

theorem MapArea.check_page_raw_rollback (a : MapArea) (pt : PageTable)
    (fa : FrameAllocator) (vpn : Nat)
    (h : BTreeMap.contains_key a.data_frame vpn = false) (hf : 0 < fa.free)
    (hpt : (pt.lookup vpn).isSome = true) :
    MapArea.check_page_raw a pt fa vpn =
      (.error (.PageError .PageAlreadyAlloc), a, pt,
       ⟨fa.free, fa.next + 1⟩) := by
  unfold MapArea.check_page_raw
  have hf0 : fa.free ≠ 0 := by omega
  simp only [h, Bool.false_eq_true, if_false, frame_alloc, hf0, ite_false]
  simp only [PageTable.map, hpt, if_true]
  have hrm := BTreeMap.remove_insert_fresh a.data_frame vpn fa.next
    ((BTreeMap.contains_key_eq_false _ _).mp h)
  simp only [hrm, frame_dealloc]
  have : fa.free - 1 + 1 = fa.free := by omega
  simp [this]

theorem MapArea.check_page_raw_fill (a : MapArea) (pt : PageTable)
    (fa : FrameAllocator) (vpn : Nat)
    (h : BTreeMap.contains_key a.data_frame vpn = false) (hf : 0 < fa.free)
    (hpt : pt.lookup vpn = none) :
    MapArea.check_page_raw a pt fa vpn =
      (.ok (), { a with data_frame := a.data_frame ++ [(vpn, fa.next)] },
       ⟨pt.entries ++ [(vpn, ⟨fa.next, a.map_permission⟩)]⟩,
       ⟨fa.free - 1, fa.next + 1⟩) := by
  unfold MapArea.check_page_raw
  have hf0 : fa.free ≠ 0 := by omega
  simp only [h, Bool.false_eq_true, if_false, frame_alloc, hf0, ite_false]
  simp only [PageTable.map, hpt, Option.isSome_none, Bool.false_eq_true, if_false]
  rw [BTreeMap.insert_fresh a.data_frame vpn fa.next
    ((BTreeMap.contains_key_eq_false _ _).mp h)]

/-! The fill loop: monotonicity of ownership, success postcondition, and the
ownership/page-table consistency invariant. -/

theorem MapArea.check_page_raw_mono (a : MapArea) (pt : PageTable)
    (fa : FrameAllocator) (vpn v : Nat)
    (h : BTreeMap.contains_key a.data_frame v = true) :
    BTreeMap.contains_key
      (MapArea.check_page_raw a pt fa vpn).2.1.data_frame v = true := by
  by_cases hc : BTreeMap.contains_key a.data_frame vpn
  · rw [MapArea.check_page_raw_owned a pt fa vpn hc]
    exact h
  · have hc' := Bool.not_eq_true _ |>.mp hc
    by_cases hfz : fa.free = 0
    · rw [MapArea.check_page_raw_exhausted a pt fa vpn hc' hfz]
      exact h
    · have hfz' : 0 < fa.free := by omega
      by_cases hpt : (pt.lookup vpn).isSome = true
      · rw [MapArea.check_page_raw_rollback a pt fa vpn hc' hfz' hpt]
        exact h
      · have hpt' : pt.lookup vpn = none := by
          cases hx : pt.lookup vpn with
          | none => rfl
          | some e => rw [hx] at hpt; exact absurd rfl hpt
        rw [MapArea.check_page_raw_fill a pt fa vpn hc' hfz' hpt']
        rw [BTreeMap.contains_key_iff] at h ⊢
        simp only [List.map_append, List.mem_append]
        exact Or.inl h

theorem MapArea.check_page_raw_ok_owns (a : MapArea) (pt : PageTable)
    (fa : FrameAllocator) (vpn : Nat)
    (h : (MapArea.check_page_raw a pt fa vpn).1 = .ok ()) :
    BTreeMap.contains_key
      (MapArea.check_page_raw a pt fa vpn).2.1.data_frame vpn = true := by
  by_cases hc : BTreeMap.contains_key a.data_frame vpn
  · rw [MapArea.check_page_raw_owned a pt fa vpn hc]
    exact hc
  · have hc' := Bool.not_eq_true _ |>.mp hc
    by_cases hfz : fa.free = 0
    · rw [MapArea.check_page_raw_exhausted a pt fa vpn hc' hfz] at h
      exact absurd h (by simp)
    · have hfz' : 0 < fa.free := by omega
      by_cases hpt : (pt.lookup vpn).isSome = true
      · rw [MapArea.check_page_raw_rollback a pt fa vpn hc' hfz' hpt] at h
        exact absurd h (by simp)
      · have hpt' : pt.lookup vpn = none := by
          cases hx : pt.lookup vpn with
          | none => rfl
          | some e => rw [hx] at hpt; exact absurd rfl hpt
        rw [MapArea.check_page_raw_fill a pt fa vpn hc' hfz' hpt']
        rw [BTreeMap.contains_key_iff]
        simp

theorem MapArea.check_vpns_mono (l : List Nat) (a : MapArea) (pt : PageTable)
    (fa : FrameAllocator) (v : Nat)
    (h : BTreeMap.contains_key a.data_frame v = true) :
    BTreeMap.contains_key
      (MapArea.check_vpns a pt fa l).2.1.data_frame v = true := by
  induction l generalizing a pt fa with
  | nil => exact h
  | cons vpn rest ih =>
    unfold MapArea.check_vpns
    cases hres : MapArea.check_page_raw a pt fa vpn with
    | mk res rest' =>
      have hmono := MapArea.check_page_raw_mono a pt fa vpn v h
      rw [hres] at hmono
      cases res with
      | ok u => cases u; exact ih rest'.1 rest'.2.1 rest'.2.2 hmono
      | error e => exact hmono

theorem MapArea.check_vpns_ok_owns (l : List Nat) (a : MapArea)
    (pt : PageTable) (fa : FrameAllocator)
    (h : (MapArea.check_vpns a pt fa l).1 = .ok ()) :
    ∀ v ∈ l, BTreeMap.contains_key
      (MapArea.check_vpns a pt fa l).2.1.data_frame v = true := by
  induction l generalizing a pt fa with
  | nil => intro v hv; exact absurd hv (List.not_mem_nil v)
  | cons vpn rest ih =>
    intro v hv
    unfold MapArea.check_vpns at h ⊢
    cases hres : MapArea.check_page_raw a pt fa vpn with
    | mk res rest' =>
      rw [hres] at h
      cases res with
      | ok u =>
        cases u
        simp only []
        rcases List.mem_cons.mp hv with he | hm
        · subst he
          have howns := MapArea.check_page_raw_ok_owns a pt fa v (by rw [hres])
          rw [hres] at howns
          simp only [] at howns
          exact MapArea.check_vpns_mono rest rest'.1 rest'.2.1 rest'.2.2 v howns
        · exact ih rest'.1 rest'.2.1 rest'.2.2 h v hm
      | error e => exact absurd h (by simp)

/-- Ownership/page-table consistency: every VPN owning a frame is mapped. -/
def FramesMapped (a : MapArea) (pt : PageTable) : Prop :=
  ∀ v, v ∈ a.data_frame.map Prod.fst → (pt.lookup v).isSome = true

theorem MapArea.check_page_raw_inv (a : MapArea) (pt : PageTable)
    (fa : FrameAllocator) (vpn : Nat) (hinv : FramesMapped a pt) :
    FramesMapped (MapArea.check_page_raw a pt fa vpn).2.1
      (MapArea.check_page_raw a pt fa vpn).2.2.1 := by
  by_cases hc : BTreeMap.contains_key a.data_frame vpn
  · rw [MapArea.check_page_raw_owned a pt fa vpn hc]
    exact hinv
  · have hc' := Bool.not_eq_true _ |>.mp hc
    by_cases hfz : fa.free = 0
    · rw [MapArea.check_page_raw_exhausted a pt fa vpn hc' hfz]
      exact hinv
    · have hfz' : 0 < fa.free := by omega
      by_cases hpt : (pt.lookup vpn).isSome = true
      · rw [MapArea.check_page_raw_rollback a pt fa vpn hc' hfz' hpt]
        exact hinv
      · have hpt' : pt.lookup vpn = none := by
          cases hx : pt.lookup vpn with
          | none => rfl
          | some e => rw [hx] at hpt; exact absurd rfl hpt
        rw [MapArea.check_page_raw_fill a pt fa vpn hc' hfz' hpt']
        intro v hv
        simp only [List.map_append, List.mem_append, List.map_cons] at hv
        rcases hv with hv | hv
        · have := hinv v hv
          rw [PageTable.lookup_append]
          cases hx : pt.lookup v with
          | none => rw [hx] at this; exact absurd this (by simp)
          | some e => simp [Option.or]
        · simp at hv
          rw [hv, PageTable.lookup_append, hpt']
          simp [Option.or, PageTable.lookup, List.lookup]

theorem MapArea.check_vpns_inv (l : List Nat) (a : MapArea) (pt : PageTable)
    (fa : FrameAllocator) (hinv : FramesMapped a pt) :
    FramesMapped (MapArea.check_vpns a pt fa l).2.1
      (MapArea.check_vpns a pt fa l).2.2.1 := by
  induction l generalizing a pt fa with
  | nil => exact hinv
  | cons vpn rest ih =>
    unfold MapArea.check_vpns
    have hstep := MapArea.check_page_raw_inv a pt fa vpn hinv
    cases hres : MapArea.check_page_raw a pt fa vpn with
    | mk res rest' =>
      rw [hres] at hstep
      cases res with
      | ok u => cases u; exact ih rest'.1 rest'.2.1 rest'.2.2 hstep
      | error e => exact hstep

/-- C2: for every `FrameBacked` region and requested range, `check_range`
(and `check_all_page`, which is `check_range` over the whole region)
allocates a frame, records ownership and installs the mapping for each page
of the intersection not yet owning a frame; a failed page-table insertion
rolls the just-taken frame back out of the region (freeing it) before the
error propagates, keeping ownership consistent with the installed mappings;
on `Identity` regions `check_range` is a no-op returning success. -/
theorem C2_check_range_fill_and_rollback (a : MapArea) (pt : PageTable)
    (fa : FrameAllocator) (vpn : Nat) (rg : VPNRange) :
    (a.map_type = MapType.Identical →
      MapArea.check_range a pt fa rg = (.ok (), a, pt, fa)) ∧
    (MapArea.check_all_page a pt fa = MapArea.check_range a pt fa a.vpn_range) ∧
    (BTreeMap.contains_key a.data_frame vpn = true →
      MapArea.check_page_raw a pt fa vpn = (.ok (), a, pt, fa)) ∧
    (BTreeMap.contains_key a.data_frame vpn = false → fa.free = 0 →
      MapArea.check_page_raw a pt fa vpn =
        (.error .MemoryNotEnough, a, pt, fa)) ∧
    (BTreeMap.contains_key a.data_frame vpn = false → 0 < fa.free →
      (pt.lookup vpn).isSome = true →
      MapArea.check_page_raw a pt fa vpn =
        (.error (.PageError .PageAlreadyAlloc), a, pt,
         ⟨fa.free, fa.next + 1⟩)) ∧
    (BTreeMap.contains_key a.data_frame vpn = false → 0 < fa.free →
      pt.lookup vpn = none →
      MapArea.check_page_raw a pt fa vpn =
        (.ok (), { a with data_frame := a.data_frame ++ [(vpn, fa.next)] },
         ⟨pt.entries ++ [(vpn, ⟨fa.next, a.map_permission⟩)]⟩,
         ⟨fa.free - 1, fa.next + 1⟩)) ∧
    (a.map_type = MapType.Framed →
      (MapArea.check_range a pt fa rg).1 = .ok () →
      ∀ v ∈ (a.vpn_range.intersection rg).toList,
        BTreeMap.contains_key
          (MapArea.check_range a pt fa rg).2.1.data_frame v = true) ∧
    (FramesMapped a pt →
      FramesMapped (MapArea.check_range a pt fa rg).2.1
        (MapArea.check_range a pt fa rg).2.2.1) := by
  refine ⟨?_, rfl, MapArea.check_page_raw_owned a pt fa vpn,
    MapArea.check_page_raw_exhausted a pt fa vpn,
    MapArea.check_page_raw_rollback a pt fa vpn,
    MapArea.check_page_raw_fill a pt fa vpn, ?_, ?_⟩
  · intro h
    unfold MapArea.check_range
    rw [h]
  · intro hty h
    unfold MapArea.check_range at h ⊢
    rw [hty] at h ⊢
    exact MapArea.check_vpns_ok_owns _ a pt fa h
  · intro hinv
    unfold MapArea.check_range
    cases hty : a.map_type with
    | Identical => exact hinv
    | Framed => exact MapArea.check_vpns_inv _ a pt fa hinv

/-- Witness for C2 at concrete inputs: a fresh one-page region over an empty
page table fills exactly that page, and the rollback case restores the
region when the table already maps the page. -/
theorem C2_witness :
    ((BTreeMap.contains_key ([] : BTreeMap Nat) 0 = false) ∧
     (0 : Nat) < 10 ∧
     (PageTable.mk []).lookup 0 = none) ∧
    MapArea.check_page_raw ⟨⟨0, 1⟩, [], MapType.Framed, 2⟩ ⟨[]⟩ ⟨10, 0⟩ 0 =
      (.ok (), ⟨⟨0, 1⟩, [(0, 0)], MapType.Framed, 2⟩,
       ⟨[(0, ⟨0, 2⟩)]⟩, ⟨9, 1⟩) := by
  refine ⟨⟨by decide, by decide, by decide⟩, ?_⟩
  exact (C2_check_range_fill_and_rollback ⟨⟨0, 1⟩, [], MapType.Framed, 2⟩
    ⟨[]⟩ ⟨10, 0⟩ 0 ⟨0, 1⟩).2.2.2.2.2.1 (by decide) (by decide) (by decide)

/-- Witness for C1: a three-frame region split strictly inside its range. -/
theorem C1_witness :
    ((([(11, 100), (15, 101), (17, 102)] : BTreeMap Nat).map Prod.fst).Nodup) ∧
    (MapArea.split
        ⟨⟨10, 20⟩, [(11, 100), (15, 101), (17, 102)], MapType.Framed, 2⟩
        16).1.data_frame =
      ([(11, 100), (15, 101), (17, 102)] : BTreeMap Nat).filter
        (fun kv => decide (kv.1 < 16)) := by
  refine ⟨by decide, ?_⟩
  exact ((C1_split_partitions_frames
    ⟨⟨10, 20⟩, [(11, 100), (15, 101), (17, 102)], MapType.Framed, 2⟩ 16
    (by decide)).2.2 (by decide) (by decide)).1

/-! Filling a list of fresh pages: the frames and page-table entries gained
are the pages paired with consecutive physical page numbers. -/

def freshFrames : List Nat → Nat → BTreeMap Nat
  | [], _ => []
  | v :: rest, n0 => (v, n0) :: freshFrames rest (n0 + 1)

def freshEntries (perm : Nat) : List Nat → Nat → List (Nat × PageTableEntry)
  | [], _ => []
  | v :: rest, n0 => (v, ⟨n0, perm⟩) :: freshEntries perm rest (n0 + 1)

theorem PageTable.lookup_single_ne (k v : Nat) (e : PageTableEntry)
    (h : k ≠ v) : (PageTable.mk [(v, e)]).lookup k = none := by
  have hb : (k == v) = false := by simp [h]
  simp [PageTable.lookup, List.lookup, hb]

theorem MapArea.check_vpns_cons_ok (a : MapArea) (pt : PageTable)
    (fa : FrameAllocator) (v : Nat) (rest : List Nat) (a1 : MapArea)
    (pt1 : PageTable) (fa1 : FrameAllocator)
    (h : MapArea.check_page_raw a pt fa v = (.ok (), a1, pt1, fa1)) :
    MapArea.check_vpns a pt fa (v :: rest) =
      MapArea.check_vpns a1 pt1 fa1 rest := by
  conv_lhs => unfold MapArea.check_vpns
  rw [h]

theorem MapArea.check_vpns_cons_error (a : MapArea) (pt : PageTable)
    (fa : FrameAllocator) (v : Nat) (rest : List Nat) (e : MemoryError)
    (a1 : MapArea) (pt1 : PageTable) (fa1 : FrameAllocator)
    (h : MapArea.check_page_raw a pt fa v = (.error e, a1, pt1, fa1)) :
    MapArea.check_vpns a pt fa (v :: rest) = (.error e, a1, pt1, fa1) := by
  unfold MapArea.check_vpns
  rw [h]

theorem MapArea.check_vpns_fresh (l : List Nat) (a : MapArea) (pt : PageTable)
    (fa : FrameAllocator)
    (hnotin : ∀ v ∈ l, v ∉ a.data_frame.map Prod.fst)
    (hpt : ∀ v ∈ l, pt.lookup v = none)
    (hnd : l.Nodup)
    (hfree : l.length ≤ fa.free) :
    MapArea.check_vpns a pt fa l =
      (.ok (),
       { a with data_frame := a.data_frame ++ freshFrames l fa.next },
       ⟨pt.entries ++ freshEntries a.map_permission l fa.next⟩,
       ⟨fa.free - l.length, fa.next + l.length⟩) := by
  induction l generalizing a pt fa with
  | nil =>
    unfold MapArea.check_vpns
    simp [freshFrames, freshEntries]
  | cons v rest ih =>
    have hvnotin : BTreeMap.contains_key a.data_frame v = false :=
      (BTreeMap.contains_key_eq_false _ _).mpr
        (hnotin v (List.mem_cons_self _ _))
    have hfpos : 0 < fa.free := by
      have := hfree
      simp only [List.length_cons] at this
      omega
    have hvpt : pt.lookup v = none := hpt v (List.mem_cons_self _ _)
    rw [MapArea.check_vpns_cons_ok a pt fa v rest _ _ _
      (MapArea.check_page_raw_fill a pt fa v hvnotin hfpos hvpt)]
    simp only [List.nodup_cons] at hnd
    have hrec := ih { a with data_frame := a.data_frame ++ [(v, fa.next)] }
      ⟨pt.entries ++ [(v, ⟨fa.next, a.map_permission⟩)]⟩
      ⟨fa.free - 1, fa.next + 1⟩
      (by
        intro v' hv'
        simp only [List.map_append, List.mem_append, List.map_cons,
          List.map_nil, List.mem_singleton]
        rintro (h | h)
        · exact hnotin v' (List.mem_cons_of_mem _ hv') h
        · exact hnd.1 (h ▸ hv'))
      (by
        intro v' hv'
        rw [PageTable.lookup_append, hpt v' (List.mem_cons_of_mem _ hv')]
        rw [PageTable.lookup_single_ne v' v _ (by
          intro he
          exact hnd.1 (he ▸ hv'))]
        rfl)
      hnd.2
      (by simp only [List.length_cons] at hfree ⊢; omega)
    rw [hrec]
    have h1 : fa.free - 1 - rest.length = fa.free - (rest.length + 1) := by omega
    have h2 : fa.next + 1 + rest.length = fa.next + (rest.length + 1) := by omega
    simp [freshFrames, freshEntries, List.append_assoc, h1, h2]

theorem MapArea.map_vpns_framed (a : MapArea) (pt : PageTable) (l : List Nat)
    (h : a.map_type = MapType.Framed) :
    MapArea.map_vpns a pt l = (.ok (), pt) := by
  induction l generalizing pt with
  | nil => rfl
  | cons v rest ih =>
    have h1 : MapArea.map_one a pt v = (.ok (), pt) := by
      unfold MapArea.map_one
      rw [h]
    conv_lhs => unfold MapArea.map_vpns
    rw [h1]
    exact ih pt

theorem MapArea.map_framed (a : MapArea) (pt : PageTable)
    (h : a.map_type = MapType.Framed) :
    MapArea.map a pt = (.ok (), pt) :=
  MapArea.map_vpns_framed a pt _ h

theorem MapArea.check_all_page_fresh (a : MapArea) (pt : PageTable)
    (fa : FrameAllocator)
    (hty : a.map_type = MapType.Framed) (hdf : a.data_frame = [])
    (hpt : ∀ v ∈ a.vpn_range.toList, pt.lookup v = none)
    (hfree : a.vpn_range.count ≤ fa.free) :
    MapArea.check_all_page a pt fa =
      (.ok (), { a with data_frame := freshFrames a.vpn_range.toList fa.next },
       ⟨pt.entries ++ freshEntries a.map_permission a.vpn_range.toList fa.next⟩,
       ⟨fa.free - a.vpn_range.count, fa.next + a.vpn_range.count⟩) := by
  unfold MapArea.check_all_page MapArea.check_range
  have hint : a.vpn_range.intersection a.vpn_range = a.vpn_range := by
    simp [VPNRange.intersection]
  simp only [hty, hint]
  rw [MapArea.check_vpns_fresh a.vpn_range.toList a pt fa
    (by intro v hv; rw [hdf]; simp)
    hpt
    (by unfold VPNRange.toList; exact List.nodup_range' _ _)
    (by unfold VPNRange.toList; rw [List.length_range']; exact hfree)]
  simp [hdf, hty, VPNRange.toList, List.length_range', VPNRange.count]

/-- C5: for every `L`-page VPN range, `insert_framed_area_lazy` registers the
region while allocating 0 physical frames (the allocator is returned
untouched); a subsequent `check_all_page` on that region allocates exactly
`L` frames, one per VPN; and the eager `insert_framed_area` allocates all `L`
frames at insertion time. -/
theorem C5_lazy_vs_eager_allocation (ms : MemorySet) (fa : FrameAllocator)
    (mem : PhysMem) (s e perm : Nat)
    (hpt : ∀ v ∈ (MapArea.new s e MapType.Framed perm).vpn_range.toList,
      ms.page_table.lookup v = none)
    (hfree : (MapArea.new s e MapType.Framed perm).vpn_range.count ≤ fa.free) :
    (MemorySet.insert_framed_area_lazy ms fa mem s e perm =
      some (.ok (),
        ⟨ms.page_table, ms.areas ++ [MapArea.new s e MapType.Framed perm]⟩,
        fa, mem)) ∧
    (MapArea.check_all_page (MapArea.new s e MapType.Framed perm)
        ms.page_table fa =
      (.ok (),
       { MapArea.new s e MapType.Framed perm with
           data_frame := freshFrames
             (MapArea.new s e MapType.Framed perm).vpn_range.toList fa.next },
       ⟨ms.page_table.entries ++
          freshEntries perm
            (MapArea.new s e MapType.Framed perm).vpn_range.toList fa.next⟩,
       ⟨fa.free - (MapArea.new s e MapType.Framed perm).vpn_range.count,
        fa.next + (MapArea.new s e MapType.Framed perm).vpn_range.count⟩)) ∧
    (MemorySet.insert_framed_area ms fa mem s e perm =
      some (.ok (),
        ⟨⟨ms.page_table.entries ++
            freshEntries perm
              (MapArea.new s e MapType.Framed perm).vpn_range.toList fa.next⟩,
          ms.areas ++
            [{ MapArea.new s e MapType.Framed perm with
                 data_frame := freshFrames
                   (MapArea.new s e MapType.Framed perm).vpn_range.toList
                   fa.next }]⟩,
        ⟨fa.free - (MapArea.new s e MapType.Framed perm).vpn_range.count,
         fa.next + (MapArea.new s e MapType.Framed perm).vpn_range.count⟩,
        mem)) := by
  have hty : (MapArea.new s e MapType.Framed perm).map_type = MapType.Framed := rfl
  have hdf : (MapArea.new s e MapType.Framed perm).data_frame = [] := rfl
  have hmap : MapArea.map (MapArea.new s e MapType.Framed perm) ms.page_table =
      (.ok (), ms.page_table) := MapArea.map_framed _ _ hty
  have hca := MapArea.check_all_page_fresh (MapArea.new s e MapType.Framed perm)
    ms.page_table fa hty hdf hpt hfree
  refine ⟨?_, hca, ?_⟩
  · unfold MemorySet.insert_framed_area_lazy MemorySet.push_lazy
    simp only [hmap]
  · unfold MemorySet.insert_framed_area MemorySet.push
    simp only [hmap, hca]
    rfl

/-- Witness for C5 at a concrete two-page range: lazy insertion leaves the
10-frame pool untouched, and the forced fill then takes exactly 2 frames. -/
theorem C5_witness :
    ((∀ v ∈ (MapArea.new 0 (2 * PAGE_SIZE) MapType.Framed 2).vpn_range.toList,
        (PageTable.mk []).lookup v = none) ∧
     (MapArea.new 0 (2 * PAGE_SIZE) MapType.Framed 2).vpn_range.count ≤ 10) ∧
    (MemorySet.insert_framed_area_lazy ⟨⟨[]⟩, []⟩ ⟨10, 0⟩ (fun _ _ => 0)
        0 (2 * PAGE_SIZE) 2 =
      some (.ok (),
        ⟨⟨[]⟩, [] ++ [MapArea.new 0 (2 * PAGE_SIZE) MapType.Framed 2]⟩,
        ⟨10, 0⟩, fun _ _ => 0)) ∧
    MapArea.check_all_page (MapArea.new 0 (2 * PAGE_SIZE) MapType.Framed 2)
        ⟨[]⟩ ⟨10, 0⟩ =
      (.ok (),
       { MapArea.new 0 (2 * PAGE_SIZE) MapType.Framed 2 with
           data_frame := freshFrames
             (MapArea.new 0 (2 * PAGE_SIZE) MapType.Framed 2).vpn_range.toList 0 },
       ⟨([] : List (Nat × PageTableEntry)) ++
          freshEntries 2
            (MapArea.new 0 (2 * PAGE_SIZE) MapType.Framed 2).vpn_range.toList 0⟩,
       ⟨10 - (MapArea.new 0 (2 * PAGE_SIZE) MapType.Framed 2).vpn_range.count,
        0 + (MapArea.new 0 (2 * PAGE_SIZE) MapType.Framed 2).vpn_range.count⟩) := by
  have h := C5_lazy_vs_eager_allocation ⟨⟨[]⟩, []⟩ ⟨10, 0⟩ (fun _ _ => 0)
    0 (2 * PAGE_SIZE) 2 (by decide) (by decide)
  exact ⟨⟨by decide, by decide⟩, h.1, h.2.1⟩

theorem MemorySet.map_memory_ok (ms : MemorySet) (fa : FrameAllocator)
    (mem : PhysMem) (s e perm : Nat)
    (h1 : (MapArea.new s e MapType.Framed perm).vpn_range.toList.any
      MemorySet.is_critical = false)
    (h2 : ms.is_mapped (MapArea.new s e MapType.Framed perm).vpn_range = false) :
    MemorySet.map_memory ms fa mem s e perm =
      some (.ok (),
        ⟨ms.page_table, ms.areas ++ [MapArea.new s e MapType.Framed perm]⟩,
        fa, mem) := by
  have hmap := MapArea.map_framed (MapArea.new s e MapType.Framed perm)
    ms.page_table rfl
  unfold MemorySet.map_memory MemorySet.push_lazy
  simp only [h1, h2, Bool.false_eq_true, if_false, hmap]

theorem MemorySet.is_mapped_append_single (ms : MemorySet) (pt : PageTable)
    (a1 : MapArea) (rg : VPNRange) :
    MemorySet.is_mapped ⟨pt, ms.areas ++ [a1]⟩ rg =
      (ms.is_mapped rg || a1.vpn_range.intersects rg) := by
  unfold MemorySet.is_mapped
  simp [List.any_append]

/-- C3: `map_memory` fails with `CriticalArea` when the page-rounded range
contains the trampoline VPN or the trap-context VPN; otherwise fails with
`ContainMapped` when the range intersects an existing region, leaving the
address space (regions and page table) unchanged; otherwise succeeds by
lazily registering the new `FrameBacked` region — and two insertions over
non-overlapping, non-conflicting ranges both succeed and coexist. -/
theorem C3_map_memory_checks (ms : MemorySet) (fa : FrameAllocator)
    (mem : PhysMem) (s e perm s2 e2 perm2 : Nat) :
    ((MapArea.new s e MapType.Framed perm).vpn_range.toList.any
        MemorySet.is_critical = true →
      MemorySet.map_memory ms fa mem s e perm =
        some (.error (.AreaError .CriticalArea), ms, fa, mem)) ∧
    ((MapArea.new s e MapType.Framed perm).vpn_range.toList.any
        MemorySet.is_critical = false →
      ms.is_mapped (MapArea.new s e MapType.Framed perm).vpn_range = true →
      MemorySet.map_memory ms fa mem s e perm =
        some (.error (.AreaError .ContainMapped), ms, fa, mem)) ∧
    ((MapArea.new s e MapType.Framed perm).vpn_range.toList.any
        MemorySet.is_critical = false →
      ms.is_mapped (MapArea.new s e MapType.Framed perm).vpn_range = false →
      MemorySet.map_memory ms fa mem s e perm =
        some (.ok (),
          ⟨ms.page_table, ms.areas ++ [MapArea.new s e MapType.Framed perm]⟩,
          fa, mem)) ∧
    ((MapArea.new s e MapType.Framed perm).vpn_range.toList.any
        MemorySet.is_critical = false →
      (MapArea.new s2 e2 MapType.Framed perm2).vpn_range.toList.any
        MemorySet.is_critical = false →
      ms.is_mapped (MapArea.new s e MapType.Framed perm).vpn_range = false →
      ms.is_mapped (MapArea.new s2 e2 MapType.Framed perm2).vpn_range = false →
      (MapArea.new s e MapType.Framed perm).vpn_range.intersects
        (MapArea.new s2 e2 MapType.Framed perm2).vpn_range = false →
      MemorySet.map_memory ms fa mem s e perm =
        some (.ok (),
          ⟨ms.page_table, ms.areas ++ [MapArea.new s e MapType.Framed perm]⟩,
          fa, mem) ∧
      MemorySet.map_memory
          ⟨ms.page_table, ms.areas ++ [MapArea.new s e MapType.Framed perm]⟩
          fa mem s2 e2 perm2 =
        some (.ok (),
          ⟨ms.page_table,
            (ms.areas ++ [MapArea.new s e MapType.Framed perm]) ++
              [MapArea.new s2 e2 MapType.Framed perm2]⟩,
          fa, mem)) := by
  refine ⟨?_, ?_, ?_, ?_⟩
  · intro h1
    unfold MemorySet.map_memory
    simp only [h1, if_true]
  · intro h1 h2
    unfold MemorySet.map_memory
    simp only [h1, h2, Bool.false_eq_true, if_false, if_true]
  · intro h1 h2
    exact MemorySet.map_memory_ok ms fa mem s e perm h1 h2
  · intro h1 h1' h2 h2' hdisj
    refine ⟨MemorySet.map_memory_ok ms fa mem s e perm h1 h2, ?_⟩
    apply MemorySet.map_memory_ok
    · exact h1'
    · rw [MemorySet.is_mapped_append_single]
      simp [h2', hdisj]

/-- Witness for C3: inserting over the trampoline page fails with
`CriticalArea`, and two disjoint low one-page regions coexist. -/
theorem C3_witness :
    ((MapArea.new TRAMPOLINE (2 ^ 64) MapType.Framed 2).vpn_range.toList.any
        MemorySet.is_critical = true) ∧
    (MemorySet.map_memory ⟨⟨[]⟩, []⟩ ⟨10, 0⟩ (fun _ _ => 0)
        TRAMPOLINE (2 ^ 64) 2 =
      some (.error (.AreaError .CriticalArea), ⟨⟨[]⟩, []⟩, ⟨10, 0⟩,
        fun _ _ => 0)) ∧
    (MemorySet.map_memory ⟨⟨[]⟩, []⟩ ⟨10, 0⟩ (fun _ _ => 0) 0 PAGE_SIZE 2 =
      some (.ok (),
        ⟨⟨[]⟩, [] ++ [MapArea.new 0 PAGE_SIZE MapType.Framed 2]⟩,
        ⟨10, 0⟩, fun _ _ => 0)) ∧
    (MemorySet.map_memory
        ⟨⟨[]⟩, [] ++ [MapArea.new 0 PAGE_SIZE MapType.Framed 2]⟩
        ⟨10, 0⟩ (fun _ _ => 0) (2 * PAGE_SIZE) (3 * PAGE_SIZE) 2 =
      some (.ok (),
        ⟨⟨[]⟩, ([] ++ [MapArea.new 0 PAGE_SIZE MapType.Framed 2]) ++
          [MapArea.new (2 * PAGE_SIZE) (3 * PAGE_SIZE) MapType.Framed 2]⟩,
        ⟨10, 0⟩, fun _ _ => 0)) := by
  have hcrit := (C3_map_memory_checks ⟨⟨[]⟩, []⟩ ⟨10, 0⟩ (fun _ _ => 0)
    TRAMPOLINE (2 ^ 64) 2 0 0 0).1 (by decide)
  have hco := (C3_map_memory_checks ⟨⟨[]⟩, []⟩ ⟨10, 0⟩ (fun _ _ => 0)
    0 PAGE_SIZE 2 (2 * PAGE_SIZE) (3 * PAGE_SIZE) 2).2.2.2
    (by decide) (by decide) (by decide) (by decide) (by decide)
  exact ⟨by decide, hcrit, hco.1, hco.2⟩

/-! Scheduler: characterization of the forward scan of `find_next_task`. -/

theorem find_first_of_find_eq_some {α : Type} (p : α → Bool) (l : List α)
    (x : α) (h : l.find? p = some x) :
    ∃ k, ∃ hk : k < l.length, l.get ⟨k, hk⟩ = x ∧ p x = true ∧
      ∀ k', ∀ hk' : k' < l.length, k' < k → p (l.get ⟨k', hk'⟩) = false := by
  induction l with
  | nil => exact absurd h (by simp)
  | cons a rest ih =>
    by_cases hp : p a
    · rw [List.find?_cons_of_pos _ hp] at h
      refine ⟨0, by simp, by simpa using (Option.some.injEq _ _ ▸ h).symm ▸ rfl, ?_, ?_⟩
      · cases h; exact hp
      · intro k' hk' hlt; omega
    · rw [List.find?_cons_of_neg _ hp] at h
      obtain ⟨k, hk, hget, hpx, hfirst⟩ := ih h
      refine ⟨k + 1, by simpa using Nat.succ_lt_succ hk, by simpa using hget,
        hpx, ?_⟩
      intro k' hk' hlt
      cases k' with
      | zero => simpa using hp
      | succ k'' =>
        have hk'' : k'' < rest.length := by simp at hk'; omega
        have := hfirst k'' hk'' (by omega)
        simpa using this

/-- C8: `find_next_task` returns the index of the first `Ready` task found
scanning forward from `current + 1` modulo the task count (in particular,
with only indices 2 and 5 `Ready` and current index 0 it returns 2), and
`run_next_task` treats the absence of any `Ready` task as total completion
and halts fatally (modelled by `none`). -/
theorem C8_find_next_task_round_robin (tasks : List TaskStatus) (current : Nat) :
    (∀ i, find_next_task tasks current = some i →
      ∃ k < tasks.length, i = (current + 1 + k) % tasks.length ∧
        tasks.getD i TaskStatus.UnInit = TaskStatus.Ready ∧
        ∀ k' < k, tasks.getD ((current + 1 + k') % tasks.length)
          TaskStatus.UnInit ≠ TaskStatus.Ready) ∧
    (find_next_task [TaskStatus.Running, TaskStatus.UnInit, TaskStatus.Ready,
        TaskStatus.Exited, TaskStatus.UnInit, TaskStatus.Ready] 0 = some 2) ∧
    ((∀ j < tasks.length, tasks.getD j TaskStatus.UnInit ≠ TaskStatus.Ready) →
      run_next_task tasks current = none) := by
  refine ⟨?_, by decide, ?_⟩
  · intro i h
    unfold find_next_task at h
    obtain ⟨k, hk, hget, hpx, hfirst⟩ := find_first_of_find_eq_some _ _ _ h
    have hlen : ((List.range' (current + 1) tasks.length).map
        (fun id => id % tasks.length)).length = tasks.length := by
      simp
    rw [hlen] at hk
    have hgetk : ((List.range' (current + 1) tasks.length).map
        (fun id => id % tasks.length)).get ⟨k, by rw [hlen]; exact hk⟩ =
        (current + 1 + k) % tasks.length := by
      simp [List.getElem_range'_1]
    refine ⟨k, hk, ?_, ?_, ?_⟩
    · rw [← hget, hgetk]
    · exact beq_iff_eq.mp hpx
    · intro k' hk'
      have hk'len : k' < tasks.length := by omega
      have := hfirst k' (by rw [hlen]; exact hk'len) hk'
      have hgetk' : ((List.range' (current + 1) tasks.length).map
          (fun id => id % tasks.length)).get ⟨k', by rw [hlen]; exact hk'len⟩ =
          (current + 1 + k') % tasks.length := by
        simp [List.getElem_range'_1]
      rw [hgetk'] at this
      intro he
      rw [he] at this
      simp at this
  · intro h
    unfold run_next_task
    have hnone : find_next_task tasks current = none := by
      unfold find_next_task
      apply List.find?_eq_none.mpr
      intro x hx
      simp only [List.mem_map] at hx
      obtain ⟨v, hv, rfl⟩ := hx
      rcases Nat.eq_zero_or_pos tasks.length with h0 | hpos
      · rw [h0] at hv
        exact absurd hv (by simp)
      · have := h (v % tasks.length) (Nat.mod_lt _ hpos)
        simpa [List.getD] using this
    rw [hnone]

/-- Witness for C8: the characterization applied at the concrete task list of
the claim's example, and exhaustion at a list with no `Ready` task. -/
theorem C8_witness :
    ((∀ j < ([TaskStatus.Running, TaskStatus.Exited] : List TaskStatus).length,
        [TaskStatus.Running, TaskStatus.Exited].getD j TaskStatus.UnInit ≠
          TaskStatus.Ready)) ∧
    run_next_task [TaskStatus.Running, TaskStatus.Exited] 0 = none ∧
    (∃ k < ([TaskStatus.Running, TaskStatus.UnInit, TaskStatus.Ready,
        TaskStatus.Exited, TaskStatus.UnInit, TaskStatus.Ready] :
          List TaskStatus).length,
      (2 : Nat) = (0 + 1 + k) % 6 ∧
      [TaskStatus.Running, TaskStatus.UnInit, TaskStatus.Ready,
        TaskStatus.Exited, TaskStatus.UnInit, TaskStatus.Ready].getD 2
          TaskStatus.UnInit = TaskStatus.Ready ∧
      ∀ k' < k, [TaskStatus.Running, TaskStatus.UnInit, TaskStatus.Ready,
        TaskStatus.Exited, TaskStatus.UnInit, TaskStatus.Ready].getD
          ((0 + 1 + k') % 6) TaskStatus.UnInit ≠ TaskStatus.Ready) := by
  refine ⟨by decide, ?_, ?_⟩
  · exact (C8_find_next_task_round_robin [TaskStatus.Running, TaskStatus.Exited]
      0).2.2 (by decide)
  · exact (C8_find_next_task_round_robin [TaskStatus.Running, TaskStatus.UnInit,
      TaskStatus.Ready, TaskStatus.Exited, TaskStatus.UnInit,
      TaskStatus.Ready] 0).1 2 (by decide)

/-! Permission checks (C9). The code requires readability in the execute
check as well, so the claim's "only the write-check imposes the additional
read requirement" fails; the counterexample below exhibits an
executable-but-unreadable page. -/

/-- Counterexample to C9 as stated: on an address space whose only page is
executable but not readable, translation succeeds and the entry is
executable, yet `check_executable` rejects with `Unexecutable`. -/
theorem C9_counterexample :
    (MemorySet.transform
        ⟨⟨[(5, ⟨7, 8⟩)]⟩, [⟨⟨5, 6⟩, [], MapType.Identical, 8⟩]⟩
        ⟨10, 0⟩ (VirtAddr.floor (5 * PAGE_SIZE))).1 =
      .ok ⟨7, 8⟩ ∧
    PageTableEntry.executable ⟨7, 8⟩ = true ∧
    PageTableEntry.readable ⟨7, 8⟩ = false ∧
    (check_executable
        ⟨⟨[(5, ⟨7, 8⟩)]⟩, [⟨⟨5, 6⟩, [], MapType.Identical, 8⟩]⟩
        ⟨10, 0⟩ (5 * PAGE_SIZE)).1 =
      .error (.PageError (.PermissionError .Unexecutable)) := by
  refine ⟨by decide, by decide, by decide, by decide⟩

/-- C9 (amended): the permission checks compose translation with a flag
test — `check_readable` succeeds iff translation succeeds and the entry is
readable, and both the write-check and the execute-check impose the
additional read requirement: `check_writeable` succeeds iff the entry is
readable and writable, `check_executable` succeeds iff the entry is readable
and executable. -/
theorem C9_permission_checks_compose (ms : MemorySet) (fa : FrameAllocator)
    (va : Nat) :
    ((check_readable ms fa va).1 = .ok () ↔
      ∃ pte, (ms.transform fa (VirtAddr.floor va)).1 = .ok pte ∧
        pte.readable = true) ∧
    ((check_writeable ms fa va).1 = .ok () ↔
      ∃ pte, (ms.transform fa (VirtAddr.floor va)).1 = .ok pte ∧
        pte.readable = true ∧ pte.writable = true) ∧
    ((check_executable ms fa va).1 = .ok () ↔
      ∃ pte, (ms.transform fa (VirtAddr.floor va)).1 = .ok pte ∧
        pte.readable = true ∧ pte.executable = true) := by
  rcases hT : ms.transform fa (VirtAddr.floor va) with ⟨res, ms', fa'⟩
  refine ⟨?_, ?_, ?_⟩
  · unfold check_readable
    rw [hT]
    cases res with
    | ok pte =>
      by_cases hr : pte.readable
      · simp [hr]
      · simp [hr]
    | error e => simp
  · unfold check_writeable
    rw [hT]
    cases res with
    | ok pte =>
      by_cases hr : pte.readable
      · by_cases hw : pte.writable
        · simp [hr, hw]
        · simp [hr, hw]
      · simp [hr]
    | error e => simp
  · unfold check_executable
    rw [hT]
    cases res with
    | ok pte =>
      by_cases hr : pte.readable
      · by_cases hx : pte.executable
        · simp [hr, hx]
        · simp [hr, hx]
      · simp [hr]
    | error e => simp

/-! Syscall accounting (C10). -/

theorem set_syscall_times_loop_oob (times : BTreeMap Nat) (arr : List Nat)
    (h : ∃ kv ∈ times, arr.length ≤ kv.1) :
    set_syscall_times_loop times arr = none := by
  induction times generalizing arr with
  | nil => simp at h
  | cons kvp rest ih =>
    obtain ⟨i, n⟩ := kvp
    unfold set_syscall_times_loop
    by_cases hi : i < arr.length
    · simp only [hi, if_true]
      apply ih
      obtain ⟨kv, hkv, hge⟩ := h
      rcases List.mem_cons.mp hkv with he | hm
      · rw [he] at hge
        simp at hge
        omega
      · exact ⟨kv, hm, by rw [List.length_set]; exact hge⟩
    · simp [hi]

theorem set_syscall_times_loop_ok (times : BTreeMap Nat) (arr : List Nat)
    (h : ∀ kv ∈ times, kv.1 < arr.length) :
    ∃ out, set_syscall_times_loop times arr = some out := by
  induction times generalizing arr with
  | nil => exact ⟨arr, rfl⟩
  | cons kvp rest ih =>
    obtain ⟨i, n⟩ := kvp
    unfold set_syscall_times_loop
    have hi : i < arr.length := h (i, n) (List.mem_cons_self _ _)
    simp only [hi, if_true]
    apply ih
    intro kv hkv
    rw [List.length_set]
    exact h kv (List.mem_cons_of_mem _ hkv)

/-- C10: `syscall_counter` records any `usize` id as a key of the counter
map, but `set_syscall_times` copies every recorded key by direct indexing
into a fixed `MAX_SYSCALL_NUM`-entry array, so once any id at or above
`MAX_SYSCALL_NUM` has been counted, `set_syscall_times` indexes out of
bounds (modelled by `none`); when every counted id is below
`MAX_SYSCALL_NUM`, the indexing is always in range. -/
theorem C10_syscall_counter_indexing (times : BTreeMap Nat) (id : Nat) :
    (id ∈ (syscall_counter times id).map Prod.fst) ∧
    ((∃ kv ∈ times, MAX_SYSCALL_NUM ≤ kv.1) →
      set_syscall_times times = none) ∧
    ((∀ kv ∈ times, kv.1 < MAX_SYSCALL_NUM) →
      ∃ out, set_syscall_times times = some out) ∧
    (MAX_SYSCALL_NUM ≤ id →
      set_syscall_times (syscall_counter times id) = none) := by
  have hmem : id ∈ (syscall_counter times id).map Prod.fst := by
    unfold syscall_counter
    by_cases hc : times.any (fun kv => kv.1 == id)
    · simp only [hc, if_true]
      simp only [List.any_eq_true] at hc
      obtain ⟨kv, hkv, he⟩ := hc
      have he' : kv.1 = id := by simpa using he
      simp only [List.map_map, List.mem_map]
      refine ⟨kv, hkv, ?_⟩
      simp [he']
    · simp [hc]
  refine ⟨hmem, ?_, ?_, ?_⟩
  · intro h
    apply set_syscall_times_loop_oob
    obtain ⟨kv, hkv, hge⟩ := h
    exact ⟨kv, hkv, by rw [List.length_replicate]; exact hge⟩
  · intro h
    apply set_syscall_times_loop_ok
    intro kv hkv
    rw [List.length_replicate]
    exact h kv hkv
  · intro h
    apply set_syscall_times_loop_oob
    obtain ⟨kv, hkv, he⟩ := List.mem_map.mp hmem
    exact ⟨kv, hkv, by rw [List.length_replicate, he]; exact h⟩

/-- Witness for C10: counting syscall id 600 (at least `MAX_SYSCALL_NUM`)
makes the later copy index out of bounds, while a small recorded map copies
fine. -/
theorem C10_witness :
    ((∀ kv ∈ ([(3, 1)] : BTreeMap Nat), kv.1 < MAX_SYSCALL_NUM) ∧
      MAX_SYSCALL_NUM ≤ 600) ∧
    (∃ out, set_syscall_times [(3, 1)] = some out) ∧
    set_syscall_times (syscall_counter [(3, 1)] 600) = none := by
  refine ⟨⟨by decide, by decide⟩, ?_, ?_⟩
  · exact (C10_syscall_counter_indexing [(3, 1)] 600).2.2.1 (by decide)
  · exact (C10_syscall_counter_indexing [(3, 1)] 600).2.2.2 (by decide)

/-! Behaviour of `unmap_one` and the unmap loop. -/

theorem MapArea.unmap_one_eq (a : MapArea) (pt : PageTable)
    (fa : FrameAllocator) (vpn : Nat) :
    MapArea.unmap_one a pt fa vpn =
      (.ok (),
       (if a.map_type = MapType.Framed ∧
           BTreeMap.contains_key a.data_frame vpn = true then
          { a with data_frame := BTreeMap.remove a.data_frame vpn } else a),
       (if (pt.lookup vpn).isSome then
          ⟨pt.entries.filter (fun kv => kv.1 != vpn)⟩ else pt),
       (if a.map_type = MapType.Framed ∧
           BTreeMap.contains_key a.data_frame vpn = true then
          frame_dealloc fa 1 else fa)) := by
  unfold MapArea.unmap_one PageTable.unmap
  by_cases hp : (pt.lookup vpn).isSome <;>
    by_cases hc : a.map_type = MapType.Framed <;>
      by_cases hk : BTreeMap.contains_key a.data_frame vpn = true <;>
        simp [hp, hc, hk]

theorem MapArea.unmap_one_ok (a : MapArea) (pt : PageTable)
    (fa : FrameAllocator) (vpn : Nat) :
    (MapArea.unmap_one a pt fa vpn).1 = .ok () := by
  rw [MapArea.unmap_one_eq]

theorem MapArea.unmap_one_mem_df (a : MapArea) (pt : PageTable)
    (fa : FrameAllocator) (vpn : Nat) (hty : a.map_type = MapType.Framed) :
    ∀ kv : Nat × Nat,
      kv ∈ (MapArea.unmap_one a pt fa vpn).2.1.data_frame ↔
        kv ∈ a.data_frame ∧ kv.1 ≠ vpn := by
  intro kv
  rw [MapArea.unmap_one_eq]
  by_cases hk : BTreeMap.contains_key a.data_frame vpn = true
  · simp only [hty, hk, and_self, if_true, true_and]
    unfold BTreeMap.remove
    rw [List.mem_filter]
    simp
  · have hk' : BTreeMap.contains_key a.data_frame vpn = false :=
      Bool.eq_false_iff.mpr hk
    simp only [hty, hk', Bool.false_eq_true, and_false, if_false, true_and]
    constructor
    · intro h
      refine ⟨h, ?_⟩
      intro he
      rw [BTreeMap.contains_key_eq_false] at hk'
      exact hk' (he ▸ List.mem_map_of_mem Prod.fst h)
    · intro h
      exact h.1

theorem MapArea.unmap_one_lookup (a : MapArea) (pt : PageTable)
    (fa : FrameAllocator) (vpn : Nat) :
    ∀ w, (MapArea.unmap_one a pt fa vpn).2.2.1.lookup w =
      if w = vpn then none else pt.lookup w := by
  intro w
  rw [MapArea.unmap_one_eq]
  by_cases hp : (pt.lookup vpn).isSome = true
  · simp only [hp, if_true]
    by_cases hw : w = vpn
    · rw [hw]
      simp [PageTable.lookup_filter_self]
    · rw [PageTable.lookup_filter_ne _ _ _ hw]
      simp [hw]
  · have hp' : (pt.lookup vpn).isSome = false := Bool.eq_false_iff.mpr hp
    simp only [hp', Bool.false_eq_true, if_false]
    by_cases hw : w = vpn
    · rw [hw]
      simp only [if_true]
      cases hx : pt.lookup vpn with
      | none => rfl
      | some e => rw [hx] at hp'; exact absurd hp' (by simp)
    · simp [hw]

theorem MapArea.unmap_one_fields (a : MapArea) (pt : PageTable)
    (fa : FrameAllocator) (vpn : Nat) :
    (MapArea.unmap_one a pt fa vpn).2.1.vpn_range = a.vpn_range ∧
    (MapArea.unmap_one a pt fa vpn).2.1.map_type = a.map_type ∧
    (MapArea.unmap_one a pt fa vpn).2.1.map_permission = a.map_permission := by
  rw [MapArea.unmap_one_eq]
  by_cases hk : a.map_type = MapType.Framed ∧
      BTreeMap.contains_key a.data_frame vpn = true
  · simp [hk]
  · simp [hk]

theorem MapArea.unmap_vpns_cons (a : MapArea) (pt : PageTable)
    (fa : FrameAllocator) (v : Nat) (rest : List Nat) (a1 : MapArea)
    (pt1 : PageTable) (fa1 : FrameAllocator)
    (h : MapArea.unmap_one a pt fa v = (.ok (), a1, pt1, fa1)) :
    MapArea.unmap_vpns a pt fa (v :: rest) =
      MapArea.unmap_vpns a1 pt1 fa1 rest := by
  conv_lhs => unfold MapArea.unmap_vpns
  rw [h]

theorem MapArea.unmap_vpns_spec (l : List Nat) (a : MapArea) (pt : PageTable)
    (fa : FrameAllocator) (hty : a.map_type = MapType.Framed) :
    (MapArea.unmap_vpns a pt fa l).1 = .ok () ∧
    (∀ kv : Nat × Nat,
      kv ∈ (MapArea.unmap_vpns a pt fa l).2.1.data_frame ↔
        kv ∈ a.data_frame ∧ kv.1 ∉ l) ∧
    (MapArea.unmap_vpns a pt fa l).2.1.vpn_range = a.vpn_range ∧
    (MapArea.unmap_vpns a pt fa l).2.1.map_type = a.map_type ∧
    (MapArea.unmap_vpns a pt fa l).2.1.map_permission = a.map_permission ∧
    (∀ w, (MapArea.unmap_vpns a pt fa l).2.2.1.lookup w =
      if w ∈ l then none else pt.lookup w) := by
  induction l generalizing a pt fa with
  | nil =>
    refine ⟨rfl, ?_, rfl, rfl, rfl, ?_⟩
    · intro kv; simp [MapArea.unmap_vpns]
    · intro w; simp [MapArea.unmap_vpns]
  | cons v rest ih =>
    rcases h1 : MapArea.unmap_one a pt fa v with ⟨res1, a1, pt1, fa1⟩
    have hok := MapArea.unmap_one_ok a pt fa v
    rw [h1] at hok
    simp only [] at hok
    subst hok
    rw [MapArea.unmap_vpns_cons a pt fa v rest _ _ _ h1]
    have hmem := MapArea.unmap_one_mem_df a pt fa v hty
    have hlk := MapArea.unmap_one_lookup a pt fa v
    have hflds := MapArea.unmap_one_fields a pt fa v
    rw [h1] at hmem hlk hflds
    simp only [] at hmem hlk hflds
    have hty1 : a1.map_type = MapType.Framed := by
      rw [hflds.2.1, hty]
    have hrec := ih a1 pt1 fa1 hty1
    refine ⟨hrec.1, ?_, ?_, ?_, ?_, ?_⟩
    · intro kv
      rw [hrec.2.1 kv]
      rw [hmem kv]
      simp only [List.mem_cons]
      constructor
      · rintro ⟨⟨h2, h3⟩, h4⟩
        exact ⟨h2, by tauto⟩
      · rintro ⟨h2, h3⟩
        refine ⟨⟨h2, ?_⟩, ?_⟩ <;> tauto
    · rw [hrec.2.2.1, hflds.1]
    · rw [hrec.2.2.2.1, hflds.2.1]
    · rw [hrec.2.2.2.2.1, hflds.2.2]
    · intro w
      rw [hrec.2.2.2.2.2 w]
      by_cases hw : w ∈ rest
      · simp [hw]
      · simp only [hw, if_false]
        rw [hlk w]
        by_cases hv : w = v
        · simp [hv]
        · simp [hv, hw]

/-! Identity expansion over fresh pages installs one identity entry per page. -/

def identEntries (perm : Nat) : List Nat → List (Nat × PageTableEntry)
  | [] => []
  | v :: rest => (v, ⟨v, perm⟩) :: identEntries perm rest

theorem MapArea.map_vpns_cons_ok (a : MapArea) (pt : PageTable) (v : Nat)
    (rest : List Nat) (pt1 : PageTable)
    (h : MapArea.map_one a pt v = (.ok (), pt1)) :
    MapArea.map_vpns a pt (v :: rest) = MapArea.map_vpns a pt1 rest := by
  conv_lhs => unfold MapArea.map_vpns
  rw [h]

theorem MapArea.map_one_ident_fresh (a : MapArea) (pt : PageTable) (v : Nat)
    (hty : a.map_type = MapType.Identical) (hpt : pt.lookup v = none) :
    MapArea.map_one a pt v =
      (.ok (), ⟨pt.entries ++ [(v, ⟨v, a.map_permission⟩)]⟩) := by
  unfold MapArea.map_one PageTable.map
  rw [hty]
  simp [hpt]

theorem MapArea.map_vpns_ident_fresh (l : List Nat) (a : MapArea)
    (pt : PageTable) (hty : a.map_type = MapType.Identical)
    (hpt : ∀ v ∈ l, pt.lookup v = none) (hnd : l.Nodup) :
    MapArea.map_vpns a pt l =
      (.ok (), ⟨pt.entries ++ identEntries a.map_permission l⟩) := by
  induction l generalizing pt with
  | nil => simp [MapArea.map_vpns, identEntries]
  | cons v rest ih =>
    simp only [List.nodup_cons] at hnd
    rw [MapArea.map_vpns_cons_ok a pt v rest _
      (MapArea.map_one_ident_fresh a pt v hty (hpt v (List.mem_cons_self _ _)))]
    have hih := ih (PageTable.mk
        (pt.entries ++ [(v, PageTableEntry.mk v a.map_permission)]))
      (by
        intro v' hv'
        rw [PageTable.lookup_append, hpt v' (List.mem_cons_of_mem _ hv'),
          PageTable.lookup_single_ne v' v _ (fun he => hnd.1 (he ▸ hv'))]
        rfl)
      hnd.2
    rw [hih]
    simp [identEntries, List.append_assoc]

/-- Counterexample to C6 as stated: expanding an `Identity` region `[0, 1)`
to `[0, 3)` over a page table that already maps page 2 maps page 1, then
fails with `PageAlreadyAlloc` on page 2 and returns with the recorded range
still `[0, 1)` — page 1 is now mapped in the table but lies outside the
recorded range, so the error path does leave the recorded `vpn_range`
inconsistent with the actual page-table state. -/
theorem C6_counterexample :
    MapArea.expand ⟨⟨0, 1⟩, [], MapType.Identical, 2⟩ ⟨[(2, ⟨2, 2⟩)]⟩
        ⟨0, 0⟩ 3 =
      (.error (.PageError .PageAlreadyAlloc),
       ⟨⟨0, 1⟩, [], MapType.Identical, 2⟩,
       ⟨[(2, ⟨2, 2⟩), (1, ⟨1, 2⟩)]⟩, ⟨0, 0⟩) ∧
    (PageTable.mk [(2, ⟨2, 2⟩), (1, ⟨1, 2⟩)]).lookup 1 = some ⟨1, 2⟩ ∧
    (PageTable.mk [(2, ⟨2, 2⟩)]).lookup 1 = none ∧
    (VPNRange.is_contains ⟨0, 1⟩ 1 = false) := by
  refine ⟨by decide, by decide, by decide, by decide⟩

/-- C6 (amended): `narrow` always succeeds and updates the recorded range
atomically with the page-table change, unmapping and dropping ownership of
exactly the trailing VPNs being cut; `expand` on a `FrameBacked` region
defers materialization (no table change) and updates the range; `expand` on
an `Identity` region whose new pages are unmapped eagerly materializes them
and updates the range; but on an error part-way through `expand` the
recorded range is left unchanged while the already-mapped new VPNs remain in
the table, so only the error-free paths are atomic. -/
theorem C6_narrow_expand_update (a : MapArea) (pt : PageTable)
    (fa : FrameAllocator) (new_end : Nat) :
    (a.map_type = MapType.Framed →
      ∃ a' pt' fa',
        MapArea.narrow a pt fa new_end = (.ok (), a', pt', fa') ∧
        a'.vpn_range = VPNRange.new a.vpn_range.get_start new_end ∧
        (∀ kv : Nat × Nat, kv ∈ a'.data_frame ↔
          kv ∈ a.data_frame ∧
            kv.1 ∉ (VPNRange.new new_end a.vpn_range.get_end).toList) ∧
        (∀ w, pt'.lookup w =
          if w ∈ (VPNRange.new new_end a.vpn_range.get_end).toList then none
          else pt.lookup w)) ∧
    (a.map_type = MapType.Framed →
      MapArea.expand a pt fa new_end =
        (.ok (),
         { a with vpn_range := VPNRange.new a.vpn_range.get_start new_end },
         pt, fa)) ∧
    (a.map_type = MapType.Identical →
      (∀ v ∈ (VPNRange.new a.vpn_range.get_end new_end).toList,
        pt.lookup v = none) →
      MapArea.expand a pt fa new_end =
        (.ok (),
         { a with vpn_range := VPNRange.new a.vpn_range.get_start new_end },
         ⟨pt.entries ++ identEntries a.map_permission
            (VPNRange.new a.vpn_range.get_end new_end).toList⟩, fa)) ∧
    (∀ e a' pt' fa',
      MapArea.expand a pt fa new_end = (.error e, a', pt', fa') → a' = a) := by
  refine ⟨?_, ?_, ?_, ?_⟩
  · intro hty
    have hspec := MapArea.unmap_vpns_spec
      (VPNRange.new new_end a.vpn_range.get_end).toList a pt fa hty
    rcases hu : MapArea.unmap_vpns a pt fa
        (VPNRange.new new_end a.vpn_range.get_end).toList with ⟨res, a1, pt1, fa1⟩
    rw [hu] at hspec
    simp only [] at hspec
    cases res with
    | error e => exact absurd hspec.1 (by simp)
    | ok u =>
      cases u
      refine ⟨{ a1 with vpn_range := VPNRange.new a.vpn_range.get_start new_end },
        pt1, fa1, ?_, rfl, ?_, hspec.2.2.2.2.2⟩
      · unfold MapArea.narrow
        rw [hu]
      · intro kv
        exact hspec.2.1 kv
  · intro hty
    unfold MapArea.expand
    rw [MapArea.map_vpns_framed a pt _ hty]
  · intro hty hpt
    unfold MapArea.expand
    rw [MapArea.map_vpns_ident_fresh _ a pt hty hpt
      (by unfold VPNRange.toList; exact List.nodup_range' _ _)]
  · intro e a' pt' fa' h
    unfold MapArea.expand at h
    rcases hm : MapArea.map_vpns a pt
        (VPNRange.new a.vpn_range.get_end new_end).toList with ⟨res, pt1⟩
    rw [hm] at h
    cases res with
    | ok u => cases u; simp at h
    | error e' =>
      simp only [] at h
      exact (congrArg (fun x => x.2.1) h).symm

/-- Witness for C6: narrowing a three-page framed region to one page, and
eagerly expanding a one-page identity region to two pages. -/
theorem C6_witness :
    ((⟨⟨0, 3⟩, [(0, 7), (2, 9)], MapType.Framed, 2⟩ : MapArea).map_type =
      MapType.Framed) ∧
    (∃ a' pt' fa',
      MapArea.narrow ⟨⟨0, 3⟩, [(0, 7), (2, 9)], MapType.Framed, 2⟩
          ⟨[(0, ⟨7, 2⟩), (2, ⟨9, 2⟩)]⟩ ⟨5, 10⟩ 1 = (.ok (), a', pt', fa') ∧
      a'.vpn_range = VPNRange.new 0 1 ∧
      (∀ kv : Nat × Nat, kv ∈ a'.data_frame ↔
        kv ∈ ([(0, 7), (2, 9)] : BTreeMap Nat) ∧
          kv.1 ∉ (VPNRange.new 1 3).toList) ∧
      (∀ w, pt'.lookup w =
        if w ∈ (VPNRange.new 1 3).toList then none
        else (PageTable.mk [(0, ⟨7, 2⟩), (2, ⟨9, 2⟩)]).lookup w)) ∧
    ((∀ v ∈ (VPNRange.new 1 2).toList, (PageTable.mk []).lookup v = none) ∧
      MapArea.expand ⟨⟨0, 1⟩, [], MapType.Identical, 2⟩ ⟨[]⟩ ⟨5, 10⟩ 2 =
        (.ok (), ⟨VPNRange.new 0 2, [], MapType.Identical, 2⟩,
         ⟨[] ++ identEntries 2 (VPNRange.new 1 2).toList⟩, ⟨5, 10⟩)) := by
  refine ⟨rfl, ?_, by decide, ?_⟩
  · exact (C6_narrow_expand_update ⟨⟨0, 3⟩, [(0, 7), (2, 9)], MapType.Framed, 2⟩
      ⟨[(0, ⟨7, 2⟩), (2, ⟨9, 2⟩)]⟩ ⟨5, 10⟩ 1).1 rfl
  · exact (C6_narrow_expand_update ⟨⟨0, 1⟩, [], MapType.Identical, 2⟩
      ⟨[]⟩ ⟨5, 10⟩ 2).2.2.1 rfl (by decide)

/-! Helper lemmas for the unmap path (C4). -/

theorem VPNRange.is_contains_iff (rg : VPNRange) (v : Nat) :
    rg.is_contains v = true ↔ rg.l ≤ v ∧ v < rg.r := by
  simp [VPNRange.is_contains]

theorem VPNRange.mem_toList (rg : VPNRange) (v : Nat) :
    v ∈ rg.toList ↔ rg.l ≤ v ∧ v < rg.r := by
  unfold VPNRange.toList
  rw [List.mem_range'_1]
  omega

theorem VPNRange.is_empty_iff (rg : VPNRange) :
    rg.is_empty = true ↔ rg.r ≤ rg.l := by
  simp [VPNRange.is_empty]

theorem BTreeMap.mem_insert {α : Type} (m : BTreeMap α) (k : Nat) (v : α)
    (kv : Nat × α) (h : kv ∈ BTreeMap.insert m k v) :
    kv ∈ m ∨ kv = (k, v) := by
  unfold BTreeMap.insert at h
  by_cases hc : m.any (fun kv => kv.1 == k)
  · rw [if_pos hc] at h
    obtain ⟨x, hx, he⟩ := List.mem_map.mp h
    by_cases hk : x.1 == k
    · rw [if_pos hk] at he
      exact Or.inr he.symm
    · rw [if_neg hk] at he
      exact Or.inl (he ▸ hx)
  · rw [if_neg hc] at h
    rcases List.mem_append.mp h with h1 | h1
    · exact Or.inl h1
    · exact Or.inr (List.mem_singleton.mp h1)

theorem MapArea.splitFrames_loop_keys (p : Nat) (df : BTreeMap Nat)
    (accl accr : BTreeMap Nat)
    (hl : ∀ kv ∈ accl, kv.1 < p) (hr : ∀ kv ∈ accr, p ≤ kv.1) :
    (∀ kv ∈ (df.foldl
      (fun acc kv =>
        if kv.1 < p then (BTreeMap.insert acc.1 kv.1 kv.2, acc.2)
        else (acc.1, BTreeMap.insert acc.2 kv.1 kv.2))
      (accl, accr)).1, kv.1 < p) ∧
    (∀ kv ∈ (df.foldl
      (fun acc kv =>
        if kv.1 < p then (BTreeMap.insert acc.1 kv.1 kv.2, acc.2)
        else (acc.1, BTreeMap.insert acc.2 kv.1 kv.2))
      (accl, accr)).2, p ≤ kv.1) := by
  induction df generalizing accl accr with
  | nil => exact ⟨hl, hr⟩
  | cons kv0 rest ih =>
    rw [List.foldl_cons]
    by_cases hp : kv0.1 < p
    · rw [if_pos hp]
      refine ih (BTreeMap.insert accl kv0.1 kv0.2) accr ?_ hr
      intro kv hkv
      rcases BTreeMap.mem_insert _ _ _ _ hkv with h1 | h1
      · exact hl kv h1
      · rw [h1]; exact hp
    · rw [if_neg hp]
      refine ih accl (BTreeMap.insert accr kv0.1 kv0.2) hl ?_
      intro kv hkv
      rcases BTreeMap.mem_insert _ _ _ _ hkv with h1 | h1
      · exact hr kv h1
      · rw [h1]; omega

theorem MapArea.splitFrames_keys (df : BTreeMap Nat) (p : Nat) :
    (∀ kv ∈ (MapArea.splitFrames df p).1, kv.1 < p) ∧
    (∀ kv ∈ (MapArea.splitFrames df p).2, p ≤ kv.1) := by
  unfold MapArea.splitFrames
  exact MapArea.splitFrames_loop_keys p df [] [] (by simp) (by simp)

theorem MapArea.split_le_start (a : MapArea) (p : Nat)
    (h : p ≤ a.vpn_range.get_start) :
    a.split p = (⟨VPNRange.new p p, [], a.map_type, a.map_permission⟩, a) := by
  unfold MapArea.split
  simp [h]

theorem MapArea.split_ge_end (a : MapArea) (p : Nat)
    (h1 : a.vpn_range.get_start < p) (h2 : a.vpn_range.get_end ≤ p) :
    a.split p = (a, ⟨VPNRange.new p p, [], a.map_type, a.map_permission⟩) := by
  unfold MapArea.split
  rw [if_neg (by omega), if_pos h2]

theorem MapArea.split_mid (a : MapArea) (p : Nat)
    (h1 : a.vpn_range.get_start < p) (h2 : p < a.vpn_range.get_end) :
    a.split p =
      (⟨VPNRange.new a.vpn_range.get_start p, (MapArea.splitFrames a.data_frame p).1,
        a.map_type, a.map_permission⟩,
       ⟨VPNRange.new p a.vpn_range.get_end, (MapArea.splitFrames a.data_frame p).2,
        a.map_type, a.map_permission⟩) := by
  unfold MapArea.split
  rw [if_neg (by omega), if_neg (by omega)]

theorem MapArea.unmap_vpns_ok_all (l : List Nat) (a : MapArea)
    (pt : PageTable) (fa : FrameAllocator) :
    (MapArea.unmap_vpns a pt fa l).1 = .ok () ∧
    (∀ w, (MapArea.unmap_vpns a pt fa l).2.2.1.lookup w =
      if w ∈ l then none else pt.lookup w) := by
  induction l generalizing a pt fa with
  | nil =>
    refine ⟨rfl, ?_⟩
    intro w
    simp [MapArea.unmap_vpns]
  | cons v rest ih =>
    rcases h1 : MapArea.unmap_one a pt fa v with ⟨res1, a1, pt1, fa1⟩
    have hok := MapArea.unmap_one_ok a pt fa v
    rw [h1] at hok
    simp only [] at hok
    subst hok
    rw [MapArea.unmap_vpns_cons a pt fa v rest _ _ _ h1]
    have hlk := MapArea.unmap_one_lookup a pt fa v
    rw [h1] at hlk
    simp only [] at hlk
    have hrec := ih a1 pt1 fa1
    refine ⟨hrec.1, ?_⟩
    intro w
    rw [hrec.2 w]
    by_cases hw : w ∈ rest
    · simp [hw]
    · simp only [hw, if_false]
      rw [hlk w]
      by_cases hv : w = v <;> simp [hv, hw]

theorem MapArea.unmap_ok_all (a : MapArea) (pt : PageTable)
    (fa : FrameAllocator) :
    (MapArea.unmap a pt fa).1 = .ok () ∧
    (∀ w, (MapArea.unmap a pt fa).2.2.1.lookup w =
      if a.vpn_range.l ≤ w ∧ w < a.vpn_range.r then none else pt.lookup w) := by
  have h := MapArea.unmap_vpns_ok_all a.vpn_range.toList a pt fa
  refine ⟨h.1, ?_⟩
  intro w
  rw [MapArea.unmap, h.2 w]
  by_cases hw : w ∈ a.vpn_range.toList
  · rw [if_pos hw, if_pos ((VPNRange.mem_toList _ _).mp hw)]
  · rw [if_neg hw, if_neg (fun hc => hw ((VPNRange.mem_toList _ _).mpr hc))]

theorem MemorySet.unmap_areas_cons_skip (pt : PageTable) (fa : FrameAllocator)
    (target : VPNRange) (area : MapArea) (rest : List MapArea)
    (h : ((area.vpn_range.exclude target).2.2).is_empty = true) :
    MemorySet.unmap_areas pt fa target (area :: rest) =
      ((MemorySet.unmap_areas pt fa target rest).1,
       area :: (MemorySet.unmap_areas pt fa target rest).2.1,
       (MemorySet.unmap_areas pt fa target rest).2.2.1,
       (MemorySet.unmap_areas pt fa target rest).2.2.2) := by
  conv_lhs => unfold MemorySet.unmap_areas
  simp only [h, if_true]

theorem MemorySet.unmap_areas_cons_split (pt : PageTable) (fa : FrameAllocator)
    (target : VPNRange) (area : MapArea) (rest : List MapArea)
    (larea rarea0 marea rarea marea' : MapArea) (pt1 : PageTable)
    (fa1 : FrameAllocator)
    (h : ((area.vpn_range.exclude target).2.2).is_empty = false)
    (hsp1 : area.split ((area.vpn_range.exclude target).1.get_end) =
      (larea, rarea0))
    (hsp2 : rarea0.split ((area.vpn_range.exclude target).2.2.get_end) =
      (marea, rarea))
    (hu : MapArea.unmap marea pt fa = (.ok (), marea', pt1, fa1)) :
    MemorySet.unmap_areas pt fa target (area :: rest) =
      ((MemorySet.unmap_areas pt1
          (frame_dealloc fa1 marea'.data_frame.length) target rest).1,
       ((if larea.vpn_range.is_empty then [] else [larea]) ++
        (if rarea.vpn_range.is_empty then [] else [rarea])) ++
         (MemorySet.unmap_areas pt1
           (frame_dealloc fa1 marea'.data_frame.length) target rest).2.1,
       (MemorySet.unmap_areas pt1
         (frame_dealloc fa1 marea'.data_frame.length) target rest).2.2.1,
       (MemorySet.unmap_areas pt1
         (frame_dealloc fa1 marea'.data_frame.length) target rest).2.2.2) := by
  conv_lhs => unfold MemorySet.unmap_areas
  simp only [h, Bool.false_eq_true, if_false, hsp1, hsp2, hu]

theorem VPNRange.is_contains_false_iff (rg : VPNRange) (v : Nat) :
    rg.is_contains v = false ↔ ¬(rg.l ≤ v ∧ v < rg.r) := by
  rw [Bool.eq_false_iff]
  exact not_congr (VPNRange.is_contains_iff rg v)

/-- One overlapping region processed by `unmap_memory`: the two `split`s
produce a middle piece covering exactly the overlap, and the kept remainder
pieces lie inside the region, avoid the target, own no frame inside the
target, and cover every page of the region outside the target. -/
theorem MemorySet.unmap_area_head (area : MapArea) (target : VPNRange)
    (hrem : ((area.vpn_range.exclude target).2.2).is_empty = false) :
    ∃ larea rarea0 marea rarea : MapArea,
      area.split ((area.vpn_range.exclude target).1.get_end) =
        (larea, rarea0) ∧
      rarea0.split ((area.vpn_range.exclude target).2.2.get_end) =
        (marea, rarea) ∧
      marea.vpn_range.l = max area.vpn_range.l target.l ∧
      marea.vpn_range.r = min area.vpn_range.r target.r ∧
      (∀ b ∈ (if larea.vpn_range.is_empty then ([] : List MapArea) else [larea]) ++
             (if rarea.vpn_range.is_empty then [] else [rarea]),
        (∀ v, b.vpn_range.is_contains v = true →
          target.is_contains v = false ∧ area.vpn_range.is_contains v = true) ∧
        (∀ kv ∈ b.data_frame, target.is_contains kv.1 = false)) ∧
      (∀ v, target.is_contains v = false →
        area.vpn_range.is_contains v = true →
        ∃ b ∈ (if larea.vpn_range.is_empty then ([] : List MapArea) else [larea]) ++
              (if rarea.vpn_range.is_empty then [] else [rarea]),
          b.vpn_range.is_contains v = true) := by
  have hooe : max area.vpn_range.l target.l < min area.vpn_range.r target.r := by
    have h3 : (VPNRange.mk (max area.vpn_range.l target.l)
        (min area.vpn_range.r target.r)).is_empty = false := hrem
    simp [VPNRange.is_empty] at h3
    omega
  have hle : (area.vpn_range.exclude target).1.get_end =
      max area.vpn_range.l target.l := by
    show min area.vpn_range.r (max area.vpn_range.l target.l) =
      max area.vpn_range.l target.l
    omega
  have hre : (area.vpn_range.exclude target).2.2.get_end =
      min area.vpn_range.r target.r := rfl
  rw [hle, hre]
  have hmax1 : area.vpn_range.l ≤ max area.vpn_range.l target.l :=
    Nat.le_max_left _ _
  have hmax2 : target.l ≤ max area.vpn_range.l target.l := Nat.le_max_right _ _
  have hmin1 : min area.vpn_range.r target.r ≤ area.vpn_range.r :=
    Nat.min_le_left _ _
  have hmin2 : min area.vpn_range.r target.r ≤ target.r := Nat.min_le_right _ _
  by_cases hB : area.vpn_range.l < max area.vpn_range.l target.l
  · -- a nonempty left remainder is cut off
    have hostl : max area.vpn_range.l target.l = target.l := by omega
    have hsp1 := MapArea.split_mid area (max area.vpn_range.l target.l)
      (by show area.vpn_range.l < _; exact hB)
      (by show max area.vpn_range.l target.l < area.vpn_range.r; omega)
    have hlkeys := (MapArea.splitFrames_keys area.data_frame
      (max area.vpn_range.l target.l)).1
    have hlept : (VPNRange.new area.vpn_range.get_start
        (max area.vpn_range.l target.l)).is_empty = false := by
      simp [VPNRange.new, VPNRange.is_empty, VPNRange.get_start]
      omega
    by_cases hC : area.vpn_range.r ≤ min area.vpn_range.r target.r
    · -- the overlap reaches the region's end: no right remainder
      have hsp2 := MapArea.split_ge_end
        ⟨VPNRange.new (max area.vpn_range.l target.l) area.vpn_range.get_end,
          (MapArea.splitFrames area.data_frame
            (max area.vpn_range.l target.l)).2,
          area.map_type, area.map_permission⟩
        (min area.vpn_range.r target.r)
        (by show max area.vpn_range.l target.l < min area.vpn_range.r target.r
            exact hooe)
        (by show area.vpn_range.get_end ≤ min area.vpn_range.r target.r
            exact hC)
      refine ⟨_, _, _, _, hsp1, hsp2, ?_, ?_, ?_, ?_⟩
      · rfl
      · show area.vpn_range.get_end = min area.vpn_range.r target.r
        show area.vpn_range.r = _
        omega
      · intro b hb
        rw [hlept] at hb
        simp only [Bool.false_eq_true, if_false] at hb
        have hrept : (VPNRange.new (min area.vpn_range.r target.r)
            (min area.vpn_range.r target.r)).is_empty = true := by
          simp [VPNRange.new, VPNRange.is_empty]
        rw [hrept] at hb
        simp only [if_true, List.append_nil, List.mem_singleton] at hb
        subst hb
        constructor
        · intro v hv
          rw [VPNRange.is_contains_iff] at hv
          simp only [VPNRange.new, VPNRange.get_start] at hv
          constructor
          · rw [VPNRange.is_contains_false_iff]
            omega
          · rw [VPNRange.is_contains_iff]
            omega
        · intro kv hkv
          have := hlkeys kv hkv
          rw [VPNRange.is_contains_false_iff]
          omega
      · intro v hvt hva
        rw [VPNRange.is_contains_false_iff] at hvt
        rw [VPNRange.is_contains_iff] at hva
        rw [hlept]
        simp only [Bool.false_eq_true, if_false]
        have hrept : (VPNRange.new (min area.vpn_range.r target.r)
            (min area.vpn_range.r target.r)).is_empty = true := by
          simp [VPNRange.new, VPNRange.is_empty]
        rw [hrept]
        simp only [if_true, List.append_nil, List.mem_singleton]
        refine ⟨_, rfl, ?_⟩
        rw [VPNRange.is_contains_iff]
        simp only [VPNRange.new, VPNRange.get_start]
        omega
    · -- a nonempty right remainder survives
      have hoelt : min area.vpn_range.r target.r = target.r := by omega
      have hsp2 := MapArea.split_mid
        ⟨VPNRange.new (max area.vpn_range.l target.l) area.vpn_range.get_end,
          (MapArea.splitFrames area.data_frame
            (max area.vpn_range.l target.l)).2,
          area.map_type, area.map_permission⟩
        (min area.vpn_range.r target.r)
        (by show max area.vpn_range.l target.l < min area.vpn_range.r target.r
            exact hooe)
        (by show min area.vpn_range.r target.r < area.vpn_range.get_end
            show _ < area.vpn_range.r
            omega)
      have hrkeys := (MapArea.splitFrames_keys
        (MapArea.splitFrames area.data_frame
          (max area.vpn_range.l target.l)).2
        (min area.vpn_range.r target.r)).2
      refine ⟨_, _, _, _, hsp1, hsp2, rfl, rfl, ?_, ?_⟩
      · intro b hb
        rw [hlept] at hb
        simp only [Bool.false_eq_true, if_false] at hb
        have hrept : (VPNRange.new (min area.vpn_range.r target.r)
            (⟨VPNRange.new (max area.vpn_range.l target.l)
                area.vpn_range.get_end,
              (MapArea.splitFrames area.data_frame
                (max area.vpn_range.l target.l)).2,
              area.map_type, area.map_permission⟩ :
                MapArea).vpn_range.get_end).is_empty = false := by
          simp [VPNRange.new, VPNRange.is_empty, VPNRange.get_end]
          omega
        rw [hrept] at hb
        simp only [Bool.false_eq_true, if_false] at hb
        rcases List.mem_append.mp hb with hb1 | hb1 <;>
          rw [List.mem_singleton] at hb1 <;> subst hb1
        · constructor
          · intro v hv
            rw [VPNRange.is_contains_iff] at hv
            simp only [VPNRange.new, VPNRange.get_start] at hv
            constructor
            · rw [VPNRange.is_contains_false_iff]
              omega
            · rw [VPNRange.is_contains_iff]
              omega
          · intro kv hkv
            have := hlkeys kv hkv
            rw [VPNRange.is_contains_false_iff]
            omega
        · constructor
          · intro v hv
            rw [VPNRange.is_contains_iff] at hv
            simp only [VPNRange.new, VPNRange.get_end] at hv
            constructor
            · rw [VPNRange.is_contains_false_iff]
              omega
            · rw [VPNRange.is_contains_iff]
              omega
          · intro kv hkv
            have := hrkeys kv hkv
            rw [VPNRange.is_contains_false_iff]
            omega
      · intro v hvt hva
        rw [VPNRange.is_contains_false_iff] at hvt
        rw [VPNRange.is_contains_iff] at hva
        rw [hlept]
        simp only [Bool.false_eq_true, if_false]
        have hrept : (VPNRange.new (min area.vpn_range.r target.r)
            (⟨VPNRange.new (max area.vpn_range.l target.l)
                area.vpn_range.get_end,
              (MapArea.splitFrames area.data_frame
                (max area.vpn_range.l target.l)).2,
              area.map_type, area.map_permission⟩ :
                MapArea).vpn_range.get_end).is_empty = false := by
          simp [VPNRange.new, VPNRange.is_empty, VPNRange.get_end]
          omega
        rw [hrept]
        simp only [Bool.false_eq_true, if_false]
        by_cases hvl : v < target.l
        · refine ⟨_, List.mem_append.mpr (Or.inl (List.mem_singleton.mpr rfl)), ?_⟩
          rw [VPNRange.is_contains_iff]
          simp only [VPNRange.new, VPNRange.get_start]
          omega
        · refine ⟨_, List.mem_append.mpr (Or.inr (List.mem_singleton.mpr rfl)), ?_⟩
          rw [VPNRange.is_contains_iff]
          simp only [VPNRange.new, VPNRange.get_end]
          omega
  · -- no left remainder: the overlap starts at the region's start
    have hosl : max area.vpn_range.l target.l = area.vpn_range.l := by omega
    have hsp1 := MapArea.split_le_start area (max area.vpn_range.l target.l)
      (by show max area.vpn_range.l target.l ≤ area.vpn_range.l; omega)
    have hlept : (VPNRange.new (max area.vpn_range.l target.l)
        (max area.vpn_range.l target.l)).is_empty = true := by
      simp [VPNRange.new, VPNRange.is_empty]
    by_cases hC : area.vpn_range.r ≤ min area.vpn_range.r target.r
    · -- overlap covers the whole region
      have hsp2 := MapArea.split_ge_end area (min area.vpn_range.r target.r)
        (by show area.vpn_range.l < _; omega)
        (by show area.vpn_range.r ≤ _; exact hC)
      refine ⟨_, _, _, _, hsp1, hsp2, by omega, by omega, ?_, ?_⟩
      · intro b hb
        rw [hlept] at hb
        have hrept : (VPNRange.new (min area.vpn_range.r target.r)
            (min area.vpn_range.r target.r)).is_empty = true := by
          simp [VPNRange.new, VPNRange.is_empty]
        rw [hrept] at hb
        simp at hb
      · intro v hvt hva
        rw [VPNRange.is_contains_false_iff] at hvt
        rw [VPNRange.is_contains_iff] at hva
        omega
    · -- only a right remainder survives
      have hoelt : min area.vpn_range.r target.r = target.r := by omega
      have hsp2 := MapArea.split_mid area (min area.vpn_range.r target.r)
        (by show area.vpn_range.l < _; omega)
        (by show min area.vpn_range.r target.r < area.vpn_range.r; omega)
      have hrkeys := (MapArea.splitFrames_keys area.data_frame
        (min area.vpn_range.r target.r)).2
      refine ⟨_, _, _, _, hsp1, hsp2,
        by simp [VPNRange.new, VPNRange.get_start]; omega, rfl, ?_, ?_⟩
      · intro b hb
        rw [hlept] at hb
        simp only [if_true, List.nil_append] at hb
        have hrept : (VPNRange.new (min area.vpn_range.r target.r)
            area.vpn_range.get_end).is_empty = false := by
          simp [VPNRange.new, VPNRange.is_empty, VPNRange.get_end]
          omega
        rw [hrept] at hb
        simp only [Bool.false_eq_true, if_false, List.mem_singleton] at hb
        subst hb
        constructor
        · intro v hv
          rw [VPNRange.is_contains_iff] at hv
          simp only [VPNRange.new, VPNRange.get_end] at hv
          constructor
          · rw [VPNRange.is_contains_false_iff]
            omega
          · rw [VPNRange.is_contains_iff]
            omega
        · intro kv hkv
          have := hrkeys kv hkv
          rw [VPNRange.is_contains_false_iff]
          omega
      · intro v hvt hva
        rw [VPNRange.is_contains_false_iff] at hvt
        rw [VPNRange.is_contains_iff] at hva
        rw [hlept]
        simp only [if_true, List.nil_append]
        have hrept : (VPNRange.new (min area.vpn_range.r target.r)
            area.vpn_range.get_end).is_empty = false := by
          simp [VPNRange.new, VPNRange.is_empty, VPNRange.get_end]
          omega
        rw [hrept]
        simp only [Bool.false_eq_true, if_false, List.mem_singleton]
        refine ⟨_, rfl, ?_⟩
        rw [VPNRange.is_contains_iff]
        simp only [VPNRange.new, VPNRange.get_end]
        omega

theorem MemorySet.unmap_areas_spec (areas : List MapArea) (pt : PageTable)
    (fa : FrameAllocator) (target : VPNRange)
    (hinv : ∀ area ∈ areas, ∀ kv ∈ area.data_frame,
      area.vpn_range.is_contains kv.1 = true) :
    (MemorySet.unmap_areas pt fa target areas).1 = .ok () ∧
    (∀ b ∈ (MemorySet.unmap_areas pt fa target areas).2.1,
      (∀ v, b.vpn_range.is_contains v = true → target.is_contains v = false) ∧
      (∀ kv ∈ b.data_frame, target.is_contains kv.1 = false)) ∧
    (∀ w, pt.lookup w = none →
      (MemorySet.unmap_areas pt fa target areas).2.2.1.lookup w = none) ∧
    (∀ v, target.is_contains v = true →
      (∃ a ∈ areas, a.vpn_range.is_contains v = true) →
      (MemorySet.unmap_areas pt fa target areas).2.2.1.lookup v = none) ∧
    (∀ v, target.is_contains v = false →
      ((∃ a ∈ areas, a.vpn_range.is_contains v = true) ↔
       (∃ b ∈ (MemorySet.unmap_areas pt fa target areas).2.1,
         b.vpn_range.is_contains v = true))) := by
  induction areas generalizing pt fa with
  | nil =>
    refine ⟨rfl, ?_, ?_, ?_, ?_⟩
    · intro b hb
      exact absurd hb (List.not_mem_nil b)
    · intro w hw
      exact hw
    · intro v _ hv
      simp at hv
    · intro v _
      simp [MemorySet.unmap_areas]
  | cons area rest ih =>
    have hinvr : ∀ a ∈ rest, ∀ kv ∈ a.data_frame,
        a.vpn_range.is_contains kv.1 = true :=
      fun a ha => hinv a (List.mem_cons_of_mem _ ha)
    have hinvh := hinv area (List.mem_cons_self _ _)
    by_cases hrem : ((area.vpn_range.exclude target).2.2).is_empty = true
    · rw [MemorySet.unmap_areas_cons_skip pt fa target area rest hrem]
      simp only []
      have ihr := ih pt fa hinvr
      have hdisj : ∀ v, area.vpn_range.is_contains v = true →
          target.is_contains v = false := by
        intro v hv
        have h3 : (VPNRange.mk (max area.vpn_range.l target.l)
            (min area.vpn_range.r target.r)).is_empty = true := hrem
        rw [VPNRange.is_empty_iff] at h3
        simp only [] at h3
        rw [VPNRange.is_contains_iff] at hv
        rw [VPNRange.is_contains_false_iff]
        omega
      refine ⟨ihr.1, ?_, ihr.2.2.1, ?_, ?_⟩
      · intro b hb
        rcases List.mem_cons.mp hb with hb1 | hb1
        · subst hb1
          refine ⟨hdisj, ?_⟩
          intro kv hkv
          exact hdisj kv.1 (hinvh kv hkv)
        · exact ihr.2.1 b hb1
      · intro v hvt hex
        obtain ⟨a, ha, hav⟩ := hex
        rcases List.mem_cons.mp ha with ha1 | ha1
        · subst ha1
          rw [hdisj v hav] at hvt
          exact absurd hvt (by simp)
        · exact ihr.2.2.2.1 v hvt ⟨a, ha1, hav⟩
      · intro v hvt
        constructor
        · rintro ⟨a, ha, hav⟩
          rcases List.mem_cons.mp ha with ha1 | ha1
          · subst ha1
            exact ⟨a, List.mem_cons_self _ _, hav⟩
          · obtain ⟨b, hb, hbv⟩ := (ihr.2.2.2.2 v hvt).mp ⟨a, ha1, hav⟩
            exact ⟨b, List.mem_cons_of_mem _ hb, hbv⟩
        · rintro ⟨b, hb, hbv⟩
          rcases List.mem_cons.mp hb with hb1 | hb1
          · subst hb1
            exact ⟨b, List.mem_cons_self _ _, hbv⟩
          · obtain ⟨a, ha, hav⟩ := (ihr.2.2.2.2 v hvt).mpr ⟨b, hb1, hbv⟩
            exact ⟨a, List.mem_cons_of_mem _ ha, hav⟩
    · have hrem' : ((area.vpn_range.exclude target).2.2).is_empty = false :=
        Bool.eq_false_iff.mpr hrem
      obtain ⟨larea, rarea0, marea, rarea, hsp1, hsp2, hml, hmr, hkept, hcov⟩ :=
        MemorySet.unmap_area_head area target hrem'
      rcases hu : MapArea.unmap marea pt fa with ⟨ures, marea', pt1, fa1⟩
      have huok := (MapArea.unmap_ok_all marea pt fa).1
      have hulk := (MapArea.unmap_ok_all marea pt fa).2
      rw [hu] at huok hulk
      simp only [] at huok hulk
      subst huok
      rw [MemorySet.unmap_areas_cons_split pt fa target area rest larea rarea0
        marea rarea marea' pt1 fa1 hrem' hsp1 hsp2 hu]
      simp only []
      have ihr := ih pt1 (frame_dealloc fa1 marea'.data_frame.length) hinvr
      have hpt1mono : ∀ w, pt.lookup w = none → pt1.lookup w = none := by
        intro w hw
        rw [hulk w]
        by_cases hc : marea.vpn_range.l ≤ w ∧ w < marea.vpn_range.r
        · rw [if_pos hc]
        · rw [if_neg hc]
          exact hw
      refine ⟨ihr.1, ?_, ?_, ?_, ?_⟩
      · intro b hb
        rcases List.mem_append.mp hb with hb1 | hb1
        · refine ⟨fun v hv => (hkept b hb1).1 v hv |>.1, (hkept b hb1).2⟩
        · exact ihr.2.1 b hb1
      · intro w hw
        exact ihr.2.2.1 w (hpt1mono w hw)
      · intro v hvt hex
        obtain ⟨a, ha, hav⟩ := hex
        rcases List.mem_cons.mp ha with ha1 | ha1
        · subst ha1
          have hv1 : pt1.lookup v = none := by
            rw [hulk v, if_pos ?_]
            rw [VPNRange.is_contains_iff] at hav hvt
            rw [hml, hmr]
            omega
          exact ihr.2.2.1 v hv1
        · exact ihr.2.2.2.1 v hvt ⟨a, ha1, hav⟩
      · intro v hvt
        constructor
        · rintro ⟨a, ha, hav⟩
          rcases List.mem_cons.mp ha with ha1 | ha1
          · subst ha1
            obtain ⟨b, hb, hbv⟩ := hcov v hvt hav
            exact ⟨b, List.mem_append.mpr (Or.inl hb), hbv⟩
          · obtain ⟨b, hb, hbv⟩ := (ihr.2.2.2.2 v hvt).mp ⟨a, ha1, hav⟩
            exact ⟨b, List.mem_append.mpr (Or.inr hb), hbv⟩
        · rintro ⟨b, hb, hbv⟩
          rcases List.mem_append.mp hb with hb1 | hb1
          · exact ⟨area, List.mem_cons_self _ _, ((hkept b hb1).1 v hbv).2⟩
          · obtain ⟨a, ha, hav⟩ := (ihr.2.2.2.2 v hvt).mpr ⟨b, hb1, hbv⟩
            exact ⟨a, List.mem_cons_of_mem _ ha, hav⟩

/-- C4: `unmap_memory` fails with `CriticalArea` whenever the page-rounded
range contains the trampoline VPN or the trap-context VPN, regardless of the
other arguments; otherwise fails with `ContainUnmapped` when the range is
not fully covered by existing regions (the source's per-region overlap
count); otherwise it succeeds, splitting every overlapping region, keeping
exactly the non-overlapping remainders (they cover the same pages outside
the target as before and own no frame inside the target), and unmapping the
target portion — every targeted page of any region is cleared from the page
table and its frames are dropped. -/
theorem C4_unmap_memory_checks (ms : MemorySet) (fa : FrameAllocator)
    (start_va end_va : Nat)
    (hinv : ∀ area ∈ ms.areas, ∀ kv ∈ area.data_frame,
      area.vpn_range.is_contains kv.1 = true) :
    ((VPNRange.new (VirtAddr.floor start_va) (VirtAddr.ceil end_va)).toList.any
        MemorySet.is_critical = true →
      MemorySet.unmap_memory ms fa start_va end_va =
        (.error (.AreaError .CriticalArea), ms, fa)) ∧
    ((VPNRange.new (VirtAddr.floor start_va) (VirtAddr.ceil end_va)).toList.any
        MemorySet.is_critical = false →
      ms.is_unmapped
        (VPNRange.new (VirtAddr.floor start_va) (VirtAddr.ceil end_va)) = true →
      MemorySet.unmap_memory ms fa start_va end_va =
        (.error (.AreaError .ContainUnmapped), ms, fa)) ∧
    ((VPNRange.new (VirtAddr.floor start_va) (VirtAddr.ceil end_va)).toList.any
        MemorySet.is_critical = false →
      ms.is_unmapped
        (VPNRange.new (VirtAddr.floor start_va) (VirtAddr.ceil end_va)) = false →
      (MemorySet.unmap_memory ms fa start_va end_va).1 = .ok () ∧
      (∀ b ∈ (MemorySet.unmap_memory ms fa start_va end_va).2.1.areas,
        (∀ v, b.vpn_range.is_contains v = true →
          (VPNRange.new (VirtAddr.floor start_va)
            (VirtAddr.ceil end_va)).is_contains v = false) ∧
        (∀ kv ∈ b.data_frame,
          (VPNRange.new (VirtAddr.floor start_va)
            (VirtAddr.ceil end_va)).is_contains kv.1 = false)) ∧
      (∀ v, (VPNRange.new (VirtAddr.floor start_va)
          (VirtAddr.ceil end_va)).is_contains v = true →
        (∃ a ∈ ms.areas, a.vpn_range.is_contains v = true) →
        (MemorySet.unmap_memory ms fa start_va end_va).2.1.page_table.lookup v =
          none) ∧
      (∀ v, (VPNRange.new (VirtAddr.floor start_va)
          (VirtAddr.ceil end_va)).is_contains v = false →
        ((∃ a ∈ ms.areas, a.vpn_range.is_contains v = true) ↔
         (∃ b ∈ (MemorySet.unmap_memory ms fa start_va end_va).2.1.areas,
           b.vpn_range.is_contains v = true)))) := by
  refine ⟨?_, ?_, ?_⟩
  · intro h
    unfold MemorySet.unmap_memory
    simp only [h, if_true]
  · intro h1 h2
    unfold MemorySet.unmap_memory
    simp only [h1, Bool.false_eq_true, if_false, h2, if_true]
  · intro h1 h2
    have hspec := MemorySet.unmap_areas_spec ms.areas ms.page_table fa
      (VPNRange.new (VirtAddr.floor start_va) (VirtAddr.ceil end_va)) hinv
    have heq : MemorySet.unmap_memory ms fa start_va end_va =
        ((MemorySet.unmap_areas ms.page_table fa
            (VPNRange.new (VirtAddr.floor start_va) (VirtAddr.ceil end_va))
            ms.areas).1,
         ⟨(MemorySet.unmap_areas ms.page_table fa
             (VPNRange.new (VirtAddr.floor start_va) (VirtAddr.ceil end_va))
             ms.areas).2.2.1,
           (MemorySet.unmap_areas ms.page_table fa
             (VPNRange.new (VirtAddr.floor start_va) (VirtAddr.ceil end_va))
             ms.areas).2.1⟩,
         (MemorySet.unmap_areas ms.page_table fa
           (VPNRange.new (VirtAddr.floor start_va) (VirtAddr.ceil end_va))
           ms.areas).2.2.2) := by
      unfold MemorySet.unmap_memory
      simp only [h1, Bool.false_eq_true, if_false, h2]
    rw [heq]
    exact ⟨hspec.1, hspec.2.1, hspec.2.2.2.1, hspec.2.2.2.2⟩

/-- Witness for C4: unmapping over the trampoline fails with `CriticalArea`;
unmapping an uncovered range fails with `ContainUnmapped`; and carving the
middle page out of a fully covered three-page region succeeds, with the
page-table and remainder properties instantiated. -/
theorem C4_witness :
    ((VPNRange.new (VirtAddr.floor TRAMPOLINE)
        (VirtAddr.ceil (2 ^ 64))).toList.any MemorySet.is_critical = true) ∧
    (MemorySet.unmap_memory ⟨⟨[]⟩, []⟩ ⟨10, 0⟩ TRAMPOLINE (2 ^ 64) =
      (.error (.AreaError .CriticalArea), ⟨⟨[]⟩, []⟩, ⟨10, 0⟩)) ∧
    (MemorySet.unmap_memory
        ⟨⟨[(0, ⟨7, 2⟩), (1, ⟨8, 2⟩), (2, ⟨9, 2⟩)]⟩,
          [⟨⟨0, 3⟩, [(0, 7), (1, 8), (2, 9)], MapType.Framed, 2⟩]⟩ ⟨0, 10⟩
        (5 * PAGE_SIZE) (6 * PAGE_SIZE) =
      (.error (.AreaError .ContainUnmapped),
       ⟨⟨[(0, ⟨7, 2⟩), (1, ⟨8, 2⟩), (2, ⟨9, 2⟩)]⟩,
         [⟨⟨0, 3⟩, [(0, 7), (1, 8), (2, 9)], MapType.Framed, 2⟩]⟩, ⟨0, 10⟩)) ∧
    ((MemorySet.unmap_memory
        ⟨⟨[(0, ⟨7, 2⟩), (1, ⟨8, 2⟩), (2, ⟨9, 2⟩)]⟩,
          [⟨⟨0, 3⟩, [(0, 7), (1, 8), (2, 9)], MapType.Framed, 2⟩]⟩ ⟨0, 10⟩
        PAGE_SIZE (2 * PAGE_SIZE)).1 = .ok () ∧
     (∀ v, (VPNRange.new (VirtAddr.floor PAGE_SIZE)
         (VirtAddr.ceil (2 * PAGE_SIZE))).is_contains v = true →
       (∃ a ∈ [(⟨⟨0, 3⟩, [(0, 7), (1, 8), (2, 9)], MapType.Framed, 2⟩ : MapArea)],
         a.vpn_range.is_contains v = true) →
       (MemorySet.unmap_memory
         ⟨⟨[(0, ⟨7, 2⟩), (1, ⟨8, 2⟩), (2, ⟨9, 2⟩)]⟩,
           [⟨⟨0, 3⟩, [(0, 7), (1, 8), (2, 9)], MapType.Framed, 2⟩]⟩ ⟨0, 10⟩
         PAGE_SIZE (2 * PAGE_SIZE)).2.1.page_table.lookup v = none)) := by
  have h1 := (C4_unmap_memory_checks ⟨⟨[]⟩, []⟩ ⟨10, 0⟩ TRAMPOLINE (2 ^ 64)
    (by decide)).1 (by decide)
  have h2 := (C4_unmap_memory_checks
    ⟨⟨[(0, ⟨7, 2⟩), (1, ⟨8, 2⟩), (2, ⟨9, 2⟩)]⟩,
      [⟨⟨0, 3⟩, [(0, 7), (1, 8), (2, 9)], MapType.Framed, 2⟩]⟩ ⟨0, 10⟩
    (5 * PAGE_SIZE) (6 * PAGE_SIZE) (by decide)).2.1 (by decide) (by decide)
  have h3 := (C4_unmap_memory_checks
    ⟨⟨[(0, ⟨7, 2⟩), (1, ⟨8, 2⟩), (2, ⟨9, 2⟩)]⟩,
      [⟨⟨0, 3⟩, [(0, 7), (1, 8), (2, 9)], MapType.Framed, 2⟩]⟩ ⟨0, 10⟩
    PAGE_SIZE (2 * PAGE_SIZE) (by decide)).2.2 (by decide) (by decide)
  exact ⟨by decide, h1, h2, h3.1, h3.2.2.1⟩

/-! Helper lemmas for `copy_data` (C7). -/

theorem chunk_getD (data : List Nat) (n j : Nat) (hj : j < PAGE_SIZE) :
    ((data.drop n).take PAGE_SIZE).getD j 0 = data.getD (n + j) 0 := by
  simp [List.getD, List.getElem?_take, hj, List.getElem?_drop]

theorem freshEntries_lookup_range (perm n0 l0 pages : Nat) :
    ∀ i < pages,
      (PageTable.mk (freshEntries perm (List.range' l0 pages) n0)).lookup
        (l0 + i) = some ⟨n0 + i, perm⟩ := by
  induction pages generalizing l0 n0 with
  | zero =>
    intro i hi
    omega
  | succ p ih =>
    intro i hi
    rw [List.range'_succ]
    cases i with
    | zero =>
      simp [freshEntries, PageTable.lookup, List.lookup]
    | succ i' =>
      have hne : (l0 + (i' + 1) == l0) = false := by
        simp only [beq_eq_false_iff_ne, ne_eq]
        omega
      have hstep := ih (n0 + 1) (l0 + 1) i' (by omega)
      have harg : l0 + 1 + i' = l0 + (i' + 1) := by omega
      have hval : n0 + 1 + i' = n0 + (i' + 1) := by omega
      rw [harg, hval] at hstep
      simpa [PageTable.lookup, freshEntries, List.lookup, hne] using hstep

theorem MapArea.copy_loop_spec (pt : PageTable) (data : List Nat)
    (n0 perm v0 pages : Nat)
    (hub : data.length ≤ pages * PAGE_SIZE)
    (hlb : (pages - 1) * PAGE_SIZE < data.length)
    (hlk : ∀ i < pages, pt.lookup (v0 + i) = some ⟨n0 + i, perm⟩) :
    ∀ m i mem, i + m + 1 = pages →
      (MapArea.copy_loop pt mem (data.drop (i * PAGE_SIZE)) (v0 + i)).1 =
        .ok () ∧
      (∀ k, i ≤ k → k < pages →
        ∀ j < min PAGE_SIZE (data.length - k * PAGE_SIZE),
          (MapArea.copy_loop pt mem (data.drop (i * PAGE_SIZE)) (v0 + i)).2
            (n0 + k) j = data.getD (k * PAGE_SIZE + j) 0) ∧
      (∀ p j, (∀ k, i ≤ k → k < pages → p ≠ n0 + k) →
        (MapArea.copy_loop pt mem (data.drop (i * PAGE_SIZE)) (v0 + i)).2 p j =
          mem p j) := by
  have h4096 : PAGE_SIZE = 4096 := rfl
  have htr : ∀ i < pages, pt.translate (v0 + i) = .ok ⟨n0 + i, perm⟩ := by
    intro i hi
    unfold PageTable.translate
    rw [hlk i hi]
  have hsrclen : ∀ i : Nat, ((data.drop (i * PAGE_SIZE)).take PAGE_SIZE).length =
      min PAGE_SIZE (data.length - i * PAGE_SIZE) := by
    intro i
    rw [List.length_take, List.length_drop]
  intro m
  induction m with
  | zero =>
    intro i mem him
    have hi : i < pages := by omega
    have hbreak : (data.drop (i * PAGE_SIZE)).length ≤ PAGE_SIZE := by
      rw [List.length_drop]
      rw [h4096] at hub ⊢
      omega
    have heq : MapArea.copy_loop pt mem (data.drop (i * PAGE_SIZE)) (v0 + i) =
        (.ok (), mem.writeBytes (n0 + i)
          ((data.drop (i * PAGE_SIZE)).take PAGE_SIZE)) := by
      conv_lhs => unfold MapArea.copy_loop
      rw [htr i hi]
      simp only []
      rw [dif_pos hbreak]
    rw [heq]
    refine ⟨rfl, ?_, ?_⟩
    · intro k hk1 hk2 j hj
      have hk : k = i := by omega
      subst hk
      simp only [PhysMem.writeBytes]
      rw [if_pos ⟨trivial, by rw [hsrclen k]; exact hj⟩]
      exact chunk_getD data (k * PAGE_SIZE) j (by omega)
    · intro p j hp
      simp only [PhysMem.writeBytes]
      rw [if_neg ?_]
      intro hc
      exact hp i (Nat.le_refl i) hi hc.1
  | succ m ih =>
    intro i mem him
    have hi : i < pages := by omega
    have hcont : ¬ (data.drop (i * PAGE_SIZE)).length ≤ PAGE_SIZE := by
      rw [List.length_drop]
      rw [h4096] at hlb ⊢
      omega
    have hdd : List.drop PAGE_SIZE (data.drop (i * PAGE_SIZE)) =
        data.drop ((i + 1) * PAGE_SIZE) := by
      rw [List.drop_drop]
      have harith : i * PAGE_SIZE + PAGE_SIZE = (i + 1) * PAGE_SIZE := by ring
      rw [harith]
    have hvv : v0 + i + 1 = v0 + (i + 1) := by omega
    have heq : MapArea.copy_loop pt mem (data.drop (i * PAGE_SIZE)) (v0 + i) =
        MapArea.copy_loop pt
          (mem.writeBytes (n0 + i) ((data.drop (i * PAGE_SIZE)).take PAGE_SIZE))
          (data.drop ((i + 1) * PAGE_SIZE)) (v0 + (i + 1)) := by
      conv_lhs => unfold MapArea.copy_loop
      rw [htr i hi]
      simp only []
      rw [dif_neg hcont, hdd, hvv]
    rw [heq]
    have ihr := ih (i + 1)
      (mem.writeBytes (n0 + i) ((data.drop (i * PAGE_SIZE)).take PAGE_SIZE))
      (by omega)
    refine ⟨ihr.1, ?_, ?_⟩
    · intro k hk1 hk2 j hj
      by_cases hki : k = i
      · subst hki
        rw [ihr.2.2 (n0 + k) j (by intro k' hk1' hk2'; omega)]
        simp only [PhysMem.writeBytes]
        rw [if_pos ⟨trivial, by rw [hsrclen k]; exact hj⟩]
        exact chunk_getD data (k * PAGE_SIZE) j (by omega)
      · exact ihr.2.1 k (by omega) hk2 j hj
    · intro p j hp
      rw [ihr.2.2 p j (fun k' hk1' hk2' => hp k' (by omega) hk2')]
      simp only [PhysMem.writeBytes]
      rw [if_neg ?_]
      intro hc
      exact hp i (Nat.le_refl i) hi hc.1

/-- C7: `copy_data` requires a `FrameBacked` region and asserts it is large
enough for `⌈data.len / PAGE_SIZE⌉` pages (the assertion panic is modelled by
`none`); on a fresh region it eagerly commits exactly that many pages
starting from the region's start (the allocator hands out one frame per
page) and copies the data page by page into the backing frames, so that
translating each page and reading its leading bytes from physical memory
yields exactly the corresponding bytes of `data`. -/
theorem C7_copy_data_roundtrip (a : MapArea) (pt : PageTable)
    (fa : FrameAllocator) (mem : PhysMem) (data : List Nat)
    (hty : a.map_type = MapType.Framed)
    (hdf : a.data_frame = [])
    (hlen : 0 < data.length)
    (hpages : (data.length - 1 + PAGE_SIZE) / PAGE_SIZE ≤ a.vpn_range.count)
    (hpt : ∀ v ∈ (VPNRange.new_by_len a.vpn_range.get_start
        ((data.length - 1 + PAGE_SIZE) / PAGE_SIZE)).toList,
      pt.lookup v = none)
    (hfree : (data.length - 1 + PAGE_SIZE) / PAGE_SIZE ≤ fa.free) :
    (∀ (a2 : MapArea) (pt2 : PageTable) (fa2 : FrameAllocator) (mem2 : PhysMem)
        (d2 : List Nat), a2.map_type ≠ MapType.Framed →
      MapArea.copy_data a2 pt2 fa2 mem2 d2 = none) ∧
    (∀ (a2 : MapArea) (pt2 : PageTable) (fa2 : FrameAllocator) (mem2 : PhysMem)
        (d2 : List Nat), a2.map_type = MapType.Framed →
      ¬ (d2.length - 1 + PAGE_SIZE) / PAGE_SIZE ≤ a2.vpn_range.count →
      MapArea.copy_data a2 pt2 fa2 mem2 d2 = none) ∧
    (∃ a' pt' fa' mem',
      MapArea.copy_data a pt fa mem data = some (.ok (), a', pt', fa', mem') ∧
      fa' = ⟨fa.free - (data.length - 1 + PAGE_SIZE) / PAGE_SIZE,
             fa.next + (data.length - 1 + PAGE_SIZE) / PAGE_SIZE⟩ ∧
      a'.data_frame = freshFrames
        (List.range' a.vpn_range.l ((data.length - 1 + PAGE_SIZE) / PAGE_SIZE))
        fa.next ∧
      (∀ i < (data.length - 1 + PAGE_SIZE) / PAGE_SIZE,
        ∃ pte, pt'.translate (a.vpn_range.l + i) = .ok pte ∧
          ∀ j < min PAGE_SIZE (data.length - i * PAGE_SIZE),
            mem' pte.ppn j = data.getD (i * PAGE_SIZE + j) 0)) := by
  refine ⟨?_, ?_, ?_⟩
  · intro a2 pt2 fa2 mem2 d2 h
    unfold MapArea.copy_data
    rw [if_pos h]
  · intro a2 pt2 fa2 mem2 d2 h1 h2
    unfold MapArea.copy_data
    rw [if_neg (by rw [h1]; simp)]
    simp only []
    rw [if_pos h2]
  · have h4096 : PAGE_SIZE = 4096 := rfl
    have hcnt : (data.length - 1 + PAGE_SIZE) / PAGE_SIZE ≤
        a.vpn_range.r - a.vpn_range.l := hpages
    have hpfacts : 0 < (data.length - 1 + PAGE_SIZE) / PAGE_SIZE ∧
        data.length ≤ ((data.length - 1 + PAGE_SIZE) / PAGE_SIZE) * PAGE_SIZE ∧
        (((data.length - 1 + PAGE_SIZE) / PAGE_SIZE) - 1) * PAGE_SIZE <
          data.length := by
      rw [h4096] at *
      omega
    have hint : a.vpn_range.intersection
        (VPNRange.new_by_len a.vpn_range.get_start
          ((data.length - 1 + PAGE_SIZE) / PAGE_SIZE)) =
        VPNRange.new_by_len a.vpn_range.get_start
          ((data.length - 1 + PAGE_SIZE) / PAGE_SIZE) := by
      simp only [VPNRange.intersection, VPNRange.new_by_len, VPNRange.get_start,
        Nat.max_self]
      exact congrArg (VPNRange.mk _) (by omega)
    have hTL : (VPNRange.new_by_len a.vpn_range.get_start
        ((data.length - 1 + PAGE_SIZE) / PAGE_SIZE)).toList =
        List.range' a.vpn_range.l ((data.length - 1 + PAGE_SIZE) / PAGE_SIZE) := by
      simp only [VPNRange.toList, VPNRange.new_by_len, VPNRange.get_start]
      exact congrArg (List.range' _) (by omega)
    have hcr : MapArea.check_range a pt fa
        (VPNRange.new_by_len a.vpn_range.get_start
          ((data.length - 1 + PAGE_SIZE) / PAGE_SIZE)) =
        (.ok (),
         { a with data_frame :=
                    freshFrames
                      (List.range' a.vpn_range.l
                        ((data.length - 1 + PAGE_SIZE) / PAGE_SIZE)) fa.next },
         ⟨pt.entries ++ freshEntries a.map_permission
           (List.range' a.vpn_range.l
             ((data.length - 1 + PAGE_SIZE) / PAGE_SIZE)) fa.next⟩,
         ⟨fa.free - (data.length - 1 + PAGE_SIZE) / PAGE_SIZE,
          fa.next + (data.length - 1 + PAGE_SIZE) / PAGE_SIZE⟩) := by
      unfold MapArea.check_range
      simp only [hty, hint, hTL]
      rw [MapArea.check_vpns_fresh
        (List.range' a.vpn_range.l ((data.length - 1 + PAGE_SIZE) / PAGE_SIZE))
        a pt fa
        (by intro v hv; rw [hdf]; simp)
        (by intro v hv; apply hpt; rw [hTL]; exact hv)
        (List.nodup_range' _ _)
        (by rw [List.length_range']; exact hfree)]
      simp [hdf, hty, List.length_range']
    have hlkup : ∀ i, i < (data.length - 1 + PAGE_SIZE) / PAGE_SIZE →
        (PageTable.mk (pt.entries ++ freshEntries a.map_permission
          (List.range' a.vpn_range.l
            ((data.length - 1 + PAGE_SIZE) / PAGE_SIZE)) fa.next)).lookup
          (a.vpn_range.l + i) =
        some ⟨fa.next + i, a.map_permission⟩ := by
      intro i hi
      rw [PageTable.lookup_append]
      have hnone : (PageTable.mk pt.entries).lookup (a.vpn_range.l + i) = none := by
        apply hpt
        rw [hTL, List.mem_range'_1]
        omega
      rw [hnone,
        freshEntries_lookup_range a.map_permission fa.next a.vpn_range.l
          ((data.length - 1 + PAGE_SIZE) / PAGE_SIZE) i hi]
      rfl
    have hspec := MapArea.copy_loop_spec
      (PageTable.mk (pt.entries ++ freshEntries a.map_permission
        (List.range' a.vpn_range.l
          ((data.length - 1 + PAGE_SIZE) / PAGE_SIZE)) fa.next))
      data fa.next a.map_permission a.vpn_range.l
      ((data.length - 1 + PAGE_SIZE) / PAGE_SIZE)
      hpfacts.2.1 hpfacts.2.2 hlkup
      ((data.length - 1 + PAGE_SIZE) / PAGE_SIZE - 1) 0 mem (by omega)
    simp only [Nat.zero_mul, List.drop_zero, Nat.add_zero] at hspec
    rcases hcl : MapArea.copy_loop
        (PageTable.mk (pt.entries ++ freshEntries a.map_permission
          (List.range' a.vpn_range.l
            ((data.length - 1 + PAGE_SIZE) / PAGE_SIZE)) fa.next))
        mem data a.vpn_range.l with ⟨clres, mem'⟩
    rw [hcl] at hspec
    simp only [] at hspec
    have hclres : clres = .ok () := hspec.1
    subst hclres
    have hcd : MapArea.copy_data a pt fa mem data =
        some (.ok (),
          { a with data_frame :=
                     freshFrames
                       (List.range' a.vpn_range.l
                         ((data.length - 1 + PAGE_SIZE) / PAGE_SIZE)) fa.next },
          ⟨pt.entries ++ freshEntries a.map_permission
            (List.range' a.vpn_range.l
              ((data.length - 1 + PAGE_SIZE) / PAGE_SIZE)) fa.next⟩,
          ⟨fa.free - (data.length - 1 + PAGE_SIZE) / PAGE_SIZE,
           fa.next + (data.length - 1 + PAGE_SIZE) / PAGE_SIZE⟩, mem') := by
      unfold MapArea.copy_data
      rw [if_neg (by rw [hty]; simp)]
      simp only []
      rw [if_neg (not_not_intro hpages)]
      simp only [VPNRange.get_start] at hcr
      simp only [VPNRange.get_start, hcr, hcl]
    refine ⟨_, _, _, _, hcd, rfl, rfl, ?_⟩
    intro i hi
    refine ⟨⟨fa.next + i, a.map_permission⟩, ?_, ?_⟩
    · unfold PageTable.translate
      rw [hlkup i hi]
    · intro j hj
      exact hspec.2.1 i (Nat.zero_le i) hi j hj

/-- Witness for C7: copying three bytes into a fresh two-page framed region
over an empty page table commits one page and reads the bytes back. -/
theorem C7_witness :
    (((⟨⟨0, 2⟩, [], MapType.Framed, 2⟩ : MapArea).map_type = MapType.Framed) ∧
     (0 : Nat) < ([1, 2, 3] : List Nat).length ∧
     (([1, 2, 3] : List Nat).length - 1 + PAGE_SIZE) / PAGE_SIZE ≤
       (⟨⟨0, 2⟩, [], MapType.Framed, 2⟩ : MapArea).vpn_range.count ∧
     (∀ v ∈ (VPNRange.new_by_len
         (⟨⟨0, 2⟩, [], MapType.Framed, 2⟩ : MapArea).vpn_range.get_start
         ((([1, 2, 3] : List Nat).length - 1 + PAGE_SIZE) / PAGE_SIZE)).toList,
       (PageTable.mk []).lookup v = none) ∧
     (([1, 2, 3] : List Nat).length - 1 + PAGE_SIZE) / PAGE_SIZE ≤ 10) ∧
    (∃ a' pt' fa' mem',
      MapArea.copy_data ⟨⟨0, 2⟩, [], MapType.Framed, 2⟩ ⟨[]⟩ ⟨10, 0⟩
          (fun _ _ => 0) [1, 2, 3] = some (.ok (), a', pt', fa', mem') ∧
      fa' = ⟨10 - (([1, 2, 3] : List Nat).length - 1 + PAGE_SIZE) / PAGE_SIZE,
             0 + (([1, 2, 3] : List Nat).length - 1 + PAGE_SIZE) / PAGE_SIZE⟩ ∧
      a'.data_frame = freshFrames
        (List.range' 0
          ((([1, 2, 3] : List Nat).length - 1 + PAGE_SIZE) / PAGE_SIZE)) 0 ∧
      (∀ i < (([1, 2, 3] : List Nat).length - 1 + PAGE_SIZE) / PAGE_SIZE,
        ∃ pte, pt'.translate (0 + i) = .ok pte ∧
          ∀ j < min PAGE_SIZE (([1, 2, 3] : List Nat).length - i * PAGE_SIZE),
            mem' pte.ppn j = ([1, 2, 3] : List Nat).getD (i * PAGE_SIZE + j) 0)) := by
  refine ⟨⟨rfl, by decide, by decide, by decide, by decide⟩, ?_⟩
  exact (C7_copy_data_roundtrip ⟨⟨0, 2⟩, [], MapType.Framed, 2⟩ ⟨[]⟩ ⟨10, 0⟩
    (fun _ _ => 0) [1, 2, 3] rfl rfl (by decide) (by decide) (by decide)
    (by decide)).2.2

end RCoreOS
